import Mathlib

/-!
Shallow embedding of the diamond inventory validator
(src/validator.py and src/app.py) and proofs about its checkers.

Modeling conventions used throughout:

* A raw pandas cell is a `Value`: Python `None`, a float `NaN`, a text
  string, or a finite float.  Finite floats are modeled exactly as the
  decimal numbers they are read from / printed as, carried as
  `num m e` denoting `m / 10 ^ e` (every numeric literal appearing in
  the claims is an exact decimal, so no binary-representation error is
  involved at any input considered here).
* Python `unicodedata.normalize("NFKC", _)` and `str.lower()` are
  modeled by the character tables `nfkcMap` / `lowerMap`: the fragment
  covering ASCII, the Unicode fullwidth forms U+FF01..U+FF5E and the
  ideographic space U+3000, which is exactly the NFKC/lower behaviour
  of real Python on every character appearing in this development;
  characters outside the fragment are left unchanged.
* Python `str.strip()` uses the CPython Unicode whitespace table,
  reproduced in `isPyWs`.
* Python `float(...)` parsing is modeled by `pyFloat`, following the
  CPython grammar (sign, digits with underscores, fraction, exponent,
  and the inf/infinity/nan keywords) over ASCII digits.
* Network probes are modeled by an oracle `probe : Nat -> String -> ProbeOutcome`
  giving, per (row index, column name), either an HTTP status code or a
  raised exception; the checker itself is then a pure function of the
  table and this oracle.
-/

namespace DV

/-- A raw cell value as read by pandas: Python None, a float NaN,
a text string, or a finite float carried as the exact decimal
`m / 10 ^ e`. -/
inductive Value where
  | none
  | nan
  | str (s : String)
  | num (m : ℤ) (e : ℕ)
deriving DecidableEq, Repr

/-- CPython Unicode whitespace predicate (the set stripped by
`str.strip()` and matched by `\s`). -/
def isPyWs (c : Char) : Bool :=
  let n := c.toNat
  (n == 0x20) || (9 ≤ n && n ≤ 13) || (0x1c ≤ n && n ≤ 0x1f) ||
  (n == 0x85) || (n == 0xa0) || (n == 0x1680) ||
  (0x2000 ≤ n && n ≤ 0x200a) || (n == 0x2028) || (n == 0x2029) ||
  (n == 0x202f) || (n == 0x205f) || (n == 0x3000)

/-- Modeled fragment of the NFKC character mapping: the fullwidth forms
U+FF01..U+FF5E fold to ASCII U+21..U+7E, and the ideographic space
U+3000 folds to an ordinary space.  Characters outside this table are
modeled as NFKC-invariant. -/
def nfkcMap : List (Char × Char) :=
  ((List.range 94).map (fun i => (Char.ofNat (0xFF01 + i), Char.ofNat (0x21 + i))))
    ++ [(Char.ofNat 0x3000, ' ')]

/-- Modeled fragment of Python `str.lower()`: ASCII uppercase and the
fullwidth uppercase letters U+FF21..U+FF3A; other characters are
modeled as fixed. -/
def lowerMap : List (Char × Char) :=
  ((List.range 26).map (fun i => (Char.ofNat (0x41 + i), Char.ofNat (0x61 + i))))
    ++ ((List.range 26).map (fun i => (Char.ofNat (0xFF21 + i), Char.ofNat (0xFF41 + i))))

/-- Look a character up in a character table, defaulting to itself. -/
def tableGet (t : List (Char × Char)) (c : Char) : Char :=
  match t.find? (fun p => p.1 == c) with
  | some p => p.2
  | Option.none => c

def nfkcChar (c : Char) : Char := tableGet nfkcMap c

def lowerChar (c : Char) : Char := tableGet lowerMap c

/-- Modeled `unicodedata.normalize("NFKC", s)` (charwise, on the
fragment described at `nfkcMap`). -/
def nfkcStr (s : String) : String := String.mk (s.data.map nfkcChar)

/-- Modeled Python `s.lower()`. -/
def pyLower (s : String) : String := String.mk (s.data.map lowerChar)

/-- Python `s.strip()` on a character list. -/
def stripChars (l : List Char) : List Char :=
  ((l.dropWhile isPyWs).reverse.dropWhile isPyWs).reverse

/-- Python `s.strip()`. -/
def pyStrip (s : String) : String := String.mk (stripChars s.data)

/-- Decimal digit list of a natural number (fuel-indexed helper). -/
def natDigitsAux : ℕ → ℕ → List Char
  | 0, _ => []
  | fuel + 1, n =>
    if n < 10 then [Char.ofNat (48 + n)]
    else natDigitsAux fuel (n / 10) ++ [Char.ofNat (48 + n % 10)]

/-- Decimal digit list of a natural number. -/
def natDigits (n : ℕ) : List Char := natDigitsAux (n + 1) n

/-- Drop trailing decimal zeros: canonicalize `m * 10 ^ (-e)` so the
last fractional digit is nonzero (matching the shortest-repr string
Python prints for such a float). -/
def canonDec : ℤ → ℕ → ℤ × ℕ
  | m, 0 => (m, 0)
  | m, e + 1 => if m % 10 == 0 then canonDec (m / 10) e else (m, e + 1)

/-- Python `str()` of the finite float `m / 10 ^ e` (decimal floats in
the non-scientific-notation range, which covers every numeric cell
considered here). -/
def floatStr (m : ℤ) (e : ℕ) : String :=
  let p := canonDec m e
  let m2 := p.1
  let e2 := p.2
  if e2 == 0 then
    String.mk ((if m2 < 0 then ['-'] else []) ++ natDigits m2.natAbs ++ ['.', '0'])
  else
    let a := m2.natAbs
    let ip := a / 10 ^ e2
    let fp := a % 10 ^ e2
    let fd := natDigits fp
    let frac := List.replicate (e2 - fd.length) '0' ++ fd
    String.mk ((if m2 < 0 then ['-'] else []) ++ natDigits ip ++ ['.'] ++ frac)

/-- Python `str()` of a raw cell value. -/
def pyStr (v : Value) : String :=
  match v with
  | Value.none => "None"
  | Value.nan => "nan"
  | Value.str s => s
  | Value.num m e => floatStr m e

/-- Membership of a character in the word-character class of the
Python regex `\w` (ASCII fragment: letters, digits, underscore). -/
def isWordChar (c : Char) : Bool :=
  (('a' ≤ c && c ≤ 'z') || ('A' ≤ c && c ≤ 'Z') || ('0' ≤ c && c ≤ '9') || c == '_')

/-- One pass of `re.sub(r"[^\w\s]", " ", s)`: every character that is
neither a word character nor whitespace becomes a space. -/
def wordSubst (l : List Char) : List Char :=
  l.map (fun c => if isWordChar c || isPyWs c then c else ' ')

/-- One pass of `re.sub(r"\s+", "_", s)`: collapse every whitespace run
to a single underscore. -/
def squeezeWs : List Char → List Char
  | [] => []
  | [c] => if isPyWs c then ['_'] else [c]
  | c :: d :: rest =>
    if isPyWs c && isPyWs d then squeezeWs (d :: rest)
    else (if isPyWs c then '_' else c) :: squeezeWs (d :: rest)

/-- Python `s.strip("_")`. -/
def stripUnderscores (l : List Char) : List Char :=
  ((l.dropWhile (fun c => c == '_')).reverse.dropWhile (fun c => c == '_')).reverse

/-- validator.normalize_header_name: lowercase, NFKC, punctuation to
spaces, whitespace runs to a single underscore, trim underscores;
empty results (and None input) map to null. -/
def normalize_header_name (v : Value) : Option String :=
  match v with
  | Value.none => Option.none
  | v =>
    let s := pyStrip (pyStr v)
    if s == "" then Option.none
    else
      let s1 := pyLower (nfkcStr s)
      let s2 := stripUnderscores (squeezeWs (wordSubst s1.data))
      if s2 == [] then Option.none else some (String.mk s2)

/-- validator.normalize_value_str: None, float NaN, blank text and the
literal text "nan" (any case) map to null; otherwise NFKC then
lowercase of the stripped text. -/
def normalize_value_str (v : Value) : Option String :=
  match v with
  | Value.none => Option.none
  | Value.nan => Option.none
  | v =>
    let s := pyStrip (pyStr v)
    if s == "" then Option.none
    else if pyLower s == "nan" then Option.none
    else some (pyLower (nfkcStr s))

/-- validator.is_empty_value: true for None, float NaN, blank text, and
the literal text "nan" in any case. -/
def is_empty_value (v : Value) : Bool :=
  match v with
  | Value.none => true
  | Value.nan => true
  | v =>
    let s := pyStrip (pyStr v)
    s == "" || pyLower s == "nan"

end DV

namespace DV

/-- An exact decimal number `m / 10 ^ e`; the representation of every
finite float value computed by the embedded code.  All arithmetic on
decimals is integer arithmetic, so every concrete run of the embedded
checkers is kernel-computable; `Dec.val` gives the denoted rational
for specification statements. -/
structure Dec where
  m : ℤ
  e : ℕ
deriving DecidableEq, Repr

/-- Rational value denoted by a decimal. -/
def Dec.val (d : Dec) : ℚ := (d.m : ℚ) / 10 ^ d.e

def Dec.neg (d : Dec) : Dec := ⟨-d.m, d.e⟩

def Dec.mul (d1 d2 : Dec) : Dec := ⟨d1.m * d2.m, d1.e + d2.e⟩

def Dec.sub (d1 d2 : Dec) : Dec :=
  ⟨d1.m * 10 ^ d2.e - d2.m * 10 ^ d1.e, d1.e + d2.e⟩

/-- Decision of `|d| > 1/100` by integer arithmetic. -/
def Dec.absGtHundredth (d : Dec) : Bool := 100 * |d.m| > 10 ^ d.e

/-- Result of Python float(): a finite value (exact decimal model), an
infinity, or a NaN. -/
inductive PyF where
  | finite (d : Dec)
  | pinf
  | ninf
  | pynan
deriving DecidableEq, Repr

/-- Take a maximal CPython digit run with underscores (an underscore
must sit between two digits); returns the digits and the unconsumed
remainder. -/
def takeDigitsU : List Char → List Char × List Char
  | [] => ([], [])
  | [c] => if c.isDigit then ([c], []) else ([], [c])
  | c :: d :: rest =>
    if c.isDigit then
      if d == '_' then
        match rest with
        | e :: _ =>
          if e.isDigit then
            let p := takeDigitsU rest
            (c :: p.1, p.2)
          else ([c], d :: rest)
        | [] => ([c], [d])
      else
        let p := takeDigitsU (d :: rest)
        (c :: p.1, p.2)
    else ([], c :: d :: rest)

/-- Natural number denoted by a list of decimal digits. -/
def digitsVal (l : List Char) : ℕ :=
  l.foldl (fun acc c => 10 * acc + (c.toNat - 48)) 0

def lowerAsciiChar (c : Char) : Char :=
  if 'A' ≤ c && c ≤ 'Z' then Char.ofNat (c.toNat + 32) else c

def lowerAscii (l : List Char) : List Char := l.map lowerAsciiChar

/-- Mantissa-and-exponent part of the CPython float grammar, after the
optional sign: digits [. digits] [exponent] with at least one mantissa
digit; nothing may remain unconsumed. -/
def parseDecimalChars (l : List Char) : Option Dec :=
  let ipp := takeDigitsU l
  let ip := ipp.1
  let r1 := ipp.2
  let fpp : List Char × List Char :=
    match r1 with
    | '.' :: r => takeDigitsU r
    | _ => ([], r1)
  let fp := fpp.1
  let r2 : List Char :=
    match r1 with
    | '.' :: _ => fpp.2
    | _ => r1
  if ip == [] && fp == [] then Option.none
  else
    let mant : Dec := ⟨(digitsVal ip * 10 ^ fp.length + digitsVal fp : ℕ), fp.length⟩
    match r2 with
    | [] => some mant
    | 'e' :: r3 => parseExp mant r3
    | 'E' :: r3 => parseExp mant r3
    | _ => Option.none
where
  parseExp (mant : Dec) (r : List Char) : Option Dec :=
    let sp : Bool × List Char :=
      match r with
      | '+' :: t => (false, t)
      | '-' :: t => (true, t)
      | _ => (false, r)
    let dp := takeDigitsU sp.2
    if dp.1 == [] || dp.2 ≠ [] then Option.none
    else
      let k := digitsVal dp.1
      some (if sp.1 then ⟨mant.m, mant.e + k⟩ else ⟨mant.m * 10 ^ k, mant.e⟩)

/-- CPython float() on an already-stripped character list: optional
sign, then either an inf/infinity/nan keyword or a decimal mantissa
with optional exponent. -/
def pyFloatChars (l : List Char) : Option PyF :=
  let sp : Bool × List Char :=
    match l with
    | '+' :: t => (false, t)
    | '-' :: t => (true, t)
    | _ => (false, l)
  let neg := sp.1
  let rest := sp.2
  let low := lowerAscii rest
  if low == "inf".data || low == "infinity".data then
    some (if neg then PyF.ninf else PyF.pinf)
  else if low == "nan".data then some PyF.pynan
  else
    match parseDecimalChars rest with
    | some d => some (PyF.finite (if neg then d.neg else d))
    | Option.none => Option.none

/-- Python float(s): strip whitespace, then parse. -/
def pyFloat (s : String) : Option PyF := pyFloatChars (stripChars s.data)

/-- Value of `x <= 0` on a Python float (false on NaN). -/
def pyLe0 (f : PyF) : Bool :=
  match f with
  | PyF.finite d => d.m ≤ 0
  | PyF.pinf => false
  | PyF.ninf => true
  | PyF.pynan => false

/-- A named column of the supplier table. -/
structure Col where
  name : String
  cells : List Value
deriving DecidableEq, Repr

/-- A pandas DataFrame: an ordered list of named columns (pandas allows
duplicate labels, and so does this model). -/
structure Table where
  cols : List Col
deriving DecidableEq, Repr

/-- Number of rows (length of the first column; all columns of a
well-formed frame have equal length). -/
def Table.nRows (t : Table) : ℕ :=
  match t.cols with
  | [] => 0
  | c :: _ => c.cells.length

/-- First column carrying a given label (pandas label lookup). -/
def Table.findCol (t : Table) (n : String) : Option Col :=
  t.cols.find? (fun c => c.name == n)

def Table.hasCol (t : Table) (n : String) : Bool := (t.findCol n).isSome

/-- Cell of a column at a row index; a pandas frame always has a value
at every in-range index (missing data is NaN). -/
def Col.cellD (c : Col) (i : ℕ) : Value := (c.cells.get? i).getD Value.nan

/-- Python `row.get(col, None)`: the cell if the column exists, None
otherwise. -/
def Table.cellD (t : Table) (n : String) (i : ℕ) : Value :=
  match t.findCol n with
  | some c => c.cellD i
  | Option.none => Value.none

end DV

namespace DV

/-- validator.normalize_headers: map each supplier header through
normalize_header_name and the header-synonym map; on a hit the column
is renamed in place, on a miss it is kept unchanged and recorded as an
unknown header.  pandas rename keeps every column (renaming can
produce duplicate labels; nothing is dropped or merged). -/
def normalize_headers (df : Table) (hm : String → Option String) :
    Table × List String :=
  let tgt : Col → Option String := fun c =>
    (normalize_header_name (Value.str c.name)).bind hm
  let newCols := df.cols.map (fun c =>
    match tgt c with
    | some n => { c with name := n }
    | Option.none => c)
  let unknown := (df.cols.filter (fun c => (tgt c).isNone)).map Col.name
  (⟨newCols⟩, unknown)

/-- Mandatory canonical columns (validator.MANDATORY_COLS). -/
def MANDATORY_COLS : List String :=
  ["stock_num", "shape", "color", "clarity", "lab",
   "image_url_1", "video_url_1", "cert_url_1"]

/-- Mandatory fields flagged for one row by validator.check_mandatory:
a mandatory column is listed when it is absent from the frame or its
cell is empty. -/
def missingColsAt (df : Table) (i : ℕ) : List String :=
  MANDATORY_COLS.filter (fun col =>
    match df.findCol col with
    | some c => is_empty_value (c.cellD i)
    | Option.none => true)

/-- validator.check_mandatory: one record per row having at least one
missing mandatory field, carrying the display row number (index + 2)
and the listed fields. -/
def check_mandatory (df : Table) : List (ℕ × List String) :=
  (List.range df.nRows).filterMap (fun i =>
    let ms := missingColsAt df i
    if ms == [] then Option.none else some (i + 2, ms))

/-- A structured Missing-Mandatory issue from app.build_mandatory_issues
(category "Missing Mandatory", issue type "Missing Value"). -/
structure MIssue where
  row : ℕ
  col : String
  value : Value
deriving DecidableEq, Repr

/-- Issues of one row in app.build_mandatory_issues: note the
col-present guard — a mandatory column absent from the frame yields no
structured issue. -/
def mandatoryRowIssues (df : Table) (i : ℕ) : List MIssue :=
  MANDATORY_COLS.filterMap (fun col =>
    match df.findCol col with
    | some c =>
      if is_empty_value (c.cellD i) then some ⟨i + 2, col, c.cellD i⟩
      else Option.none
    | Option.none => Option.none)

/-- app.build_mandatory_issues: rows in order, mandatory columns in
list order within a row. -/
def build_mandatory_issues (df : Table) : List MIssue :=
  ((List.range df.nRows).map (mandatoryRowIssues df)).flatten

/-- A Numeric-Range issue from validator.check_numeric_ranges; kind is
"carat" for the weight block, "price" for the price block (the two
message templates of the source). -/
structure RIssue where
  row : ℕ
  col : String
  value : Value
  kind : String
deriving DecidableEq, Repr

/-- Number parse used by validator.check_numeric_ranges:
float(str(val).replace(",", "")). -/
def rangeParse (v : Value) : Option PyF :=
  pyFloat (String.mk ((pyStr v).data.filter (fun c => c ≠ ',')))

/-- Per-cell loop of validator.check_numeric_ranges for one column:
non-empty cells whose comma-stripped text parses as a float less than
or equal to zero are flagged; cells that fail to parse are skipped. -/
def rangeCheckCells (name kind : String) : ℕ → List Value → List RIssue
  | _, [] => []
  | i, v :: vs =>
    (if is_empty_value v then []
     else
       match rangeParse v with
       | some f => if pyLe0 f then [⟨i + 2, name, v, kind⟩] else []
       | Option.none => []) ++ rangeCheckCells name kind (i + 1) vs

def weightColNames : List String := ["carat", "weight", "carat_weight"]

def priceColNames : List String := ["price_per_carat", "total_sales_price"]

/-- validator.check_numeric_ranges: the weight-named columns are
scanned first, then the price-named columns. -/
def check_numeric_ranges (df : Table) : List RIssue :=
  ((df.cols.filter (fun c => weightColNames.contains c.name)).map
      (fun c => rangeCheckCells c.name "carat" 0 c.cells)).flatten
    ++ ((df.cols.filter (fun c => priceColNames.contains c.name)).map
      (fun c => rangeCheckCells c.name "price" 0 c.cells)).flatten

/-- Per-field value rule: wildcard flag and accepted normalized values
(the Python set is modeled as a list up to membership). -/
structure VRule where
  wildcard : Bool
  allowed : List String
deriving DecidableEq, Repr

/-- Value-rule map: association list keyed by normalized value type,
in insertion order (a Python dict). -/
abbrev VRules : Type := List (String × VRule)

def getRule (rs : VRules) (k : String) : Option VRule :=
  ((List.find? (fun p => p.1 == k) rs)).map (fun p => p.2)

/-- A Value-Membership issue from validator.check_values, carrying the
raw (pre-normalization) cell value. -/
structure VIssue where
  row : ℕ
  col : String
  value : Value
deriving DecidableEq, Repr

/-- Per-cell loop of validator.check_values for one non-wildcard ruled
column: a cell whose normalized value exists and is not in the allowed
set is flagged with its raw value. -/
def valueCheckCells (name : String) (allowed : List String) :
    ℕ → List Value → List VIssue
  | _, [] => []
  | i, v :: vs =>
    (match normalize_value_str v with
     | some nv => if allowed.contains nv then [] else [⟨i + 2, name, v⟩]
     | Option.none => []) ++ valueCheckCells name allowed (i + 1) vs

/-- validator.check_values: each column is mapped to a value type via
normalize_header_name; columns with no rule are skipped, wildcard
rules skip the whole column, and otherwise every non-empty cell must
normalize into the allowed set. -/
def check_values (df : Table) (rules : VRules) : List VIssue :=
  (df.cols.map (fun c =>
    match normalize_header_name (Value.str c.name) with
    | Option.none => []
    | some vt =>
      match getRule rules vt with
      | Option.none => []
      | some r =>
        if r.wildcard then []
        else valueCheckCells c.name r.allowed 0 c.cells)).flatten

end DV

namespace DV

/-- One row of the Values rule sheet: Value Type, Base Value, Value
Variations. -/
structure ValuesRow where
  vtype : Value
  base : Value
  variations : Value
deriving DecidableEq, Repr

/-- Normalized variation list of a rule row: a text cell is split on
commas and each part value-normalized; any other cell is
value-normalized on its own; null results are dropped. -/
def splitVariations (v : Value) : List String :=
  match v with
  | Value.str s =>
    (s.splitOn ",").filterMap (fun part => normalize_value_str (Value.str part))
  | v =>
    match normalize_value_str v with
    | some nm => [nm]
    | Option.none => []

/-- Create the entry for a value type if absent (wildcard false, empty
accepted set), like the dict-initialization step of the source. -/
def ensureRule (rs : VRules) (k : String) : VRules :=
  if (getRule rs k).isSome then rs else rs ++ [(k, ⟨false, []⟩)]

/-- Set the wildcard flag of an existing entry (the accepted set is
left as it already is, exactly as in the source). -/
def setWildcard (rs : VRules) (k : String) : VRules :=
  rs.map (fun p => if p.1 == k then (p.1, ⟨true, p.2.allowed⟩) else p)

/-- Add one normalized value to the accepted set of an entry. -/
def addAllowed (rs : VRules) (k : String) (nm : String) : VRules :=
  rs.map (fun p =>
    if p.1 == k then (p.1, ⟨p.2.wildcard, p.2.allowed ++ [nm]⟩) else p)

/-- Processing of one Values-sheet row by validator.load_value_rules:
skip rows with no usable value type; a base value or variation equal
to "any" (after value normalization) sets the wildcard flag and adds
nothing; otherwise the base value and the non-"any" variations are
added to the accepted set. -/
def loadValueRow (rs : VRules) (row : ValuesRow) : VRules :=
  match normalize_header_name row.vtype with
  | Option.none => rs
  | some vt =>
    if normalize_value_str row.base == some "any"
        || (splitVariations row.variations).contains "any" then
      setWildcard (ensureRule rs vt) vt
    else
      (splitVariations row.variations).foldl
        (fun acc nm => if nm == "any" then acc else addAllowed acc vt nm)
        (match normalize_value_str row.base with
         | some b => addAllowed (ensureRule rs vt) vt b
         | Option.none => ensureRule rs vt)

/-- validator.load_value_rules: fold the Values sheet into the rule
map, row by row. -/
def load_value_rules (rows : List ValuesRow) : VRules :=
  rows.foldl loadValueRow []

/-- Outcome of one network probe: an HTTP status response, or a raised
exception / timeout (requests errors and the future-collection timeout
are both absorbed, never propagated). -/
inductive ProbeOutcome where
  | status (code : ℕ)
  | exn
deriving DecidableEq, Repr

/-- Classification of one URL-bearing cell. -/
inductive UrlResult where
  | notProvided
  | working
  | notWorking (code : Option ℕ)
deriving DecidableEq, Repr

/-- Blank test used by validator.fast_check_url on its own:
`url is None or str(url).strip() == ""`.  Note this is not
is_empty_value: float NaN and the text "nan" are not blank here. -/
def url_blank (v : Value) : Bool :=
  v == Value.none || pyStrip (pyStr v) == ""

/-- validator.fast_check_url: blank cells are classified NOT PROVIDED
without touching the network; otherwise the probe outcome is
classified — 200/301/302 are WORKING, any other status is NOT WORKING
carrying the status code, and any exception is NOT WORKING with no
code. -/
def fast_check_url (v : Value) (o : ProbeOutcome) : UrlResult :=
  if url_blank v then UrlResult.notProvided
  else
    match o with
    | ProbeOutcome.status c =>
      if c == 200 || c == 301 || c == 302 then UrlResult.working
      else UrlResult.notWorking (some c)
    | ProbeOutcome.exn => UrlResult.notWorking Option.none

/-- A URL issue from validator.check_all_urls (any result other than
WORKING is reported, including NOT PROVIDED). -/
structure UIssue where
  row : ℕ
  col : String
  value : Value
  result : UrlResult
deriving DecidableEq, Repr

/-- Containment of the letters "url" in a lowercased column name. -/
def chainAt : List Char → List Char → Bool
  | [], _ => true
  | _ :: _, [] => false
  | p :: ps, c :: cs => p == c && chainAt ps cs

def hasSeq (pat : List Char) : List Char → Bool
  | [] => chainAt pat []
  | c :: cs => chainAt pat (c :: cs) || hasSeq pat cs

def containsUrl (s : String) : Bool :=
  hasSeq ['u', 'r', 'l'] (lowerAscii s.data)

/-- URL-bearing columns: every column whose lowercased name contains
"url" (reconciled or not). -/
def urlCols (df : Table) : List Col :=
  df.cols.filter (fun c => containsUrl c.name)

/-- Issues of one row in validator.check_all_urls: each URL column is
probed (through the outcome oracle) and every non-WORKING result is
reported with the raw cell and the classification. -/
def urlRowIssues (df : Table) (probe : ℕ → String → ProbeOutcome) (i : ℕ) :
    List UIssue :=
  (urlCols df).filterMap (fun c =>
    if fast_check_url (c.cellD i) (probe i c.name) == UrlResult.working then Option.none
    else some ⟨i + 2, c.name, c.cellD i, fast_check_url (c.cellD i) (probe i c.name)⟩)

/-- validator.check_all_urls: tasks are submitted row-major with the
URL columns in frame order, and results are collected in exactly that
order, so the issue list is deterministic given the probe outcomes. -/
def check_all_urls (df : Table) (probe : ℕ → String → ProbeOutcome) :
    List UIssue :=
  ((List.range df.nRows).map (urlRowIssues df probe)).flatten

/-- app.find_canonical_col: the first candidate name present among the
frame columns. -/
def find_canonical_col (df : Table) (cands : List String) : Option String :=
  cands.find? (fun n => df.hasCol n)

/-- app.to_float (the local parser of build_price_mismatch_issues):
empty cells are None; otherwise strip, drop commas, drop every
character except digits, dots and minus signs, then float(); parse
failures are None. -/
def to_float (x : Value) : Option Dec :=
  if is_empty_value x then Option.none
  else
    let s := stripChars (pyStr x).data
    let s1 := s.filter (fun c => c ≠ ',')
    let s2 := s1.filter (fun c => c.isDigit || c == '.' || c == '-')
    match pyFloatChars (stripChars s2) with
    | some (PyF.finite d) => some d
    | _ => Option.none

/-- Round-half-to-even of a rational to an integer (the rounding used
by Python round() on the exact-decimal model). -/
def roundHalfEven (x : ℚ) : ℤ :=
  if x - (⌊x⌋ : ℚ) < 1 / 2 then ⌊x⌋
  else if 1 / 2 < x - (⌊x⌋ : ℚ) then ⌊x⌋ + 1
  else if ⌊x⌋ % 2 == 0 then ⌊x⌋ else ⌊x⌋ + 1

/-- Python round(x, 2) on the exact-decimal model: the
specification-level definition, on rationals. -/
def round2 (q : ℚ) : ℚ := ((roundHalfEven (q * 100) : ℤ) : ℚ) / 100

/-- Python round(d, 2) computed on decimals by integer arithmetic
(half-to-even); agrees with round2 on the denoted value. -/
def Dec.round2 (d : Dec) : Dec :=
  if d.e ≤ 2 then ⟨d.m * 10 ^ (2 - d.e), 2⟩
  else if 2 * (d.m % 10 ^ (d.e - 2)) < 10 ^ (d.e - 2) then
    ⟨d.m / 10 ^ (d.e - 2), 2⟩
  else if (10 : ℤ) ^ (d.e - 2) < 2 * (d.m % 10 ^ (d.e - 2)) then
    ⟨d.m / 10 ^ (d.e - 2) + 1, 2⟩
  else if (d.m / 10 ^ (d.e - 2)) % 2 == 0 then ⟨d.m / 10 ^ (d.e - 2), 2⟩
  else ⟨d.m / 10 ^ (d.e - 2) + 1, 2⟩

/-- A Price-Mismatch issue from app.build_price_mismatch_issues.  The
source renders the detail string "Expected {expected} = {w} * {ppc},
got {tsp}" from exactly the four numeric fields carried here, and the
issue value is the raw total-price cell. -/
structure PIssue where
  row : ℕ
  col : String
  value : Value
  expected : Dec
  w : Dec
  ppc : Dec
  tsp : Dec
deriving DecidableEq, Repr

/-- Price check of one row: all three operands must parse via to_float;
then the row is flagged when |round(w * ppc, 2) - tsp| > 0.01. -/
def priceRowIssue (wn pn tn : String) (df : Table) (i : ℕ) : Option PIssue :=
  match to_float (df.cellD wn i), to_float (df.cellD pn i), to_float (df.cellD tn i) with
  | some w, some p, some t =>
    if (((w.mul p).round2).sub t).absGtHundredth then
      some ⟨i + 2, tn, df.cellD tn i, (w.mul p).round2, w, p, t⟩
    else Option.none
  | _, _, _ => Option.none

/-- app.build_price_mismatch_issues: needs a weight column (first of
carat / weight / carat_weight), price_per_carat and total_sales_price;
with any of the three absent it reports nothing at all.  Rows are
scanned in order; rows with a missing or unparsable operand are
skipped silently. -/
def build_price_mismatch_issues (df : Table) : List PIssue :=
  match find_canonical_col df weightColNames,
      find_canonical_col df ["price_per_carat"],
      find_canonical_col df ["total_sales_price"] with
  | some wn, some pn, some tn =>
    (List.range df.nRows).filterMap (priceRowIssue wn pn tn df)
  | _, _, _ => []

end DV

namespace DV

/-! Bridge lemmas: the integer-level decimal operations denote the
expected rational operations. -/

theorem Dec.val_nonpos_iff (d : Dec) : d.val ≤ 0 ↔ d.m ≤ 0 := by
  have hp : (0 : ℚ) < 10 ^ d.e := by positivity
  constructor
  · intro h
    by_contra hm
    push_neg at hm
    have h1 : (0 : ℚ) < (d.m : ℚ) := by exact_mod_cast hm
    have h2 := div_pos h1 hp
    simp only [Dec.val] at h
    linarith
  · intro h
    have h1 : (d.m : ℚ) ≤ 0 := by exact_mod_cast h
    have h2 : (0 : ℚ) ≤ (10 ^ d.e : ℚ)⁻¹ := by positivity
    simp only [Dec.val, div_eq_mul_inv]
    nlinarith

theorem Dec.val_mul (d1 d2 : Dec) : (d1.mul d2).val = d1.val * d2.val := by
  simp only [Dec.val, Dec.mul]
  push_cast
  rw [pow_add]
  have h1 : ((10 : ℚ) ^ d1.e) ≠ 0 := by positivity
  have h2 : ((10 : ℚ) ^ d2.e) ≠ 0 := by positivity
  field_simp

theorem Dec.val_sub (d1 d2 : Dec) : (d1.sub d2).val = d1.val - d2.val := by
  simp only [Dec.val, Dec.sub]
  push_cast
  rw [pow_add]
  have h1 : ((10 : ℚ) ^ d1.e) ≠ 0 := by positivity
  have h2 : ((10 : ℚ) ^ d2.e) ≠ 0 := by positivity
  field_simp
  ring

theorem Dec.val_neg (d : Dec) : d.neg.val = -d.val := by
  simp only [Dec.val, Dec.neg]
  push_cast
  ring

theorem floor_int_div_pow (m : ℤ) (k : ℕ) :
    ⌊(m : ℚ) / (10 : ℚ) ^ k⌋ = m / (10 : ℤ) ^ k := by
  have h1 : ((10 : ℚ) ^ k) = ((10 ^ k : ℕ) : ℚ) := by push_cast; ring
  rw [h1, Rat.floor_intCast_div_natCast]
  congr 1
  push_cast
  ring

theorem Dec.val_round2 (d : Dec) : d.round2.val = DV.round2 d.val := by
  by_cases he : d.e ≤ 2
  · have hne : ((10 : ℚ) ^ d.e) ≠ 0 := by positivity
    have hsplit : (10 : ℚ) ^ (2 - d.e) * (10 : ℚ) ^ d.e = 100 := by
      rw [← pow_add]
      have h2 : 2 - d.e + d.e = 2 := by omega
      rw [h2]; norm_num
    have hx : d.val * 100 = ((d.m * 10 ^ (2 - d.e) : ℤ) : ℚ) := by
      simp only [Dec.val]
      rw [div_mul_eq_mul_div, div_eq_iff hne]
      push_cast
      rw [mul_assoc, hsplit]
    have hint : roundHalfEven ((d.m * 10 ^ (2 - d.e) : ℤ) : ℚ) = d.m * 10 ^ (2 - d.e) := by
      simp only [roundHalfEven, Int.floor_intCast, sub_self]
      norm_num
    unfold DV.round2
    rw [hx, hint]
    simp only [Dec.round2, if_pos he, Dec.val]
    norm_num
  · push_neg at he
    have hk2 : d.e = (d.e - 2) + 2 := by omega
    set k := d.e - 2 with hkdef
    set b : ℤ := 10 ^ k with hbdef
    have hbpos : (0 : ℤ) < b := by positivity
    have hbq : (0 : ℚ) < (b : ℚ) := by exact_mod_cast hbpos
    have hx : d.val * 100 = (d.m : ℚ) / (b : ℚ) := by
      simp only [Dec.val]
      rw [hk2, pow_add]
      have hkq : ((10 : ℚ) ^ k) ≠ 0 := by positivity
      have hb10 : ((b : ℤ) : ℚ) = (10 : ℚ) ^ k := by
        rw [hbdef]; push_cast; ring
      rw [hb10]
      field_simp
      ring
    set n : ℤ := d.m / b with hndef
    set r : ℤ := d.m % b with hrdef
    have hfl : ⌊(d.m : ℚ) / (b : ℚ)⌋ = n := by
      have hb10 : ((b : ℤ) : ℚ) = (10 : ℚ) ^ k := by
        rw [hbdef]; push_cast; ring
      rw [hb10, floor_int_div_pow]
    have hmod : b * n + r = d.m := Int.ediv_add_emod d.m b
    have hr0 : (0 : ℤ) ≤ r := Int.emod_nonneg d.m (ne_of_gt hbpos)
    have hrb : r < b := Int.emod_lt_of_pos d.m hbpos
    have hfrac : (d.m : ℚ) / (b : ℚ) - (n : ℚ) = (r : ℚ) / (b : ℚ) := by
      rw [div_sub' _ _ _ (ne_of_gt hbq)]
      congr 1
      have : ((b * n + r : ℤ) : ℚ) = (d.m : ℚ) := by exact_mod_cast congrArg (Int.cast : ℤ → ℚ) hmod
      push_cast at this ⊢
      linarith
    have hlt : ((r : ℚ) / (b : ℚ) < 1 / 2) ↔ 2 * r < b := by
      rw [div_lt_div_iff₀ hbq (by norm_num)]
      constructor
      · intro h
        have h2 : ((2 * r : ℤ) : ℚ) < ((b : ℤ) : ℚ) := by push_cast; linarith
        exact_mod_cast h2
      · intro h
        have h2 : ((2 * r : ℤ) : ℚ) < ((b : ℤ) : ℚ) := by exact_mod_cast h
        push_cast at h2
        linarith
    have hgt : (1 / 2 < (r : ℚ) / (b : ℚ)) ↔ b < 2 * r := by
      rw [div_lt_div_iff₀ (by norm_num) hbq]
      constructor
      · intro h
        have h2 : ((b : ℤ) : ℚ) < ((2 * r : ℤ) : ℚ) := by push_cast; linarith
        exact_mod_cast h2
      · intro h
        have h2 : ((b : ℤ) : ℚ) < ((2 * r : ℤ) : ℚ) := by exact_mod_cast h
        push_cast at h2
        linarith
    have hval : ∀ z : ℤ, (Dec.val ⟨z, 2⟩) = (z : ℚ) / 100 := by
      intro z
      simp only [Dec.val]
      norm_num
    unfold DV.round2 roundHalfEven
    rw [hx, hfl, hfrac]
    have hb' : (10 : ℤ) ^ (d.e - 2) = b := by rw [hbdef]
    have hn' : d.m / 10 ^ (d.e - 2) = n := by rw [hb', hndef]
    have hr' : d.m % 10 ^ (d.e - 2) = r := by rw [hb', hrdef]
    simp only [Dec.round2, if_neg (by omega : ¬ d.e ≤ 2), hb', hn', hr']
    by_cases h1 : 2 * r < b
    · rw [if_pos h1, if_pos (hlt.mpr h1), hval]
    · rw [if_neg h1, if_neg (fun hc => h1 (hlt.mp hc))]
      by_cases h2 : b < 2 * r
      · rw [if_pos h2, if_pos (hgt.mpr h2), hval]
      · rw [if_neg h2, if_neg (fun hc => h2 (hgt.mp hc))]
        by_cases h3 : n % 2 == 0
        · rw [if_pos h3, if_pos h3, hval]
        · rw [if_neg h3, if_neg h3, hval]

theorem Dec.absGtHundredth_iff (d : Dec) :
    d.absGtHundredth = true ↔ 1 / 100 < |d.val| := by
  have hp : (0 : ℚ) < 10 ^ d.e := by positivity
  simp only [Dec.absGtHundredth, Dec.val, gt_iff_lt, decide_eq_true_eq]
  rw [abs_div, abs_of_pos hp, div_lt_div_iff₀ (by norm_num) hp]
  constructor
  · intro h
    have h1 : ((10 : ℤ) ^ d.e : ℚ) < ((100 * |d.m| : ℤ) : ℚ) := by exact_mod_cast h
    push_cast [Int.cast_abs] at h1
    linarith
  · intro h
    have h1 : ((10 : ℤ) ^ d.e : ℚ) < ((100 * |d.m| : ℤ) : ℚ) := by
      push_cast [Int.cast_abs]
      linarith
    exact_mod_cast h1

end DV

namespace DV

/-! Generic counting helpers used by the per-claim theorems. -/

theorem sumMapRangeSingle (f : ℕ → ℕ) (r : ℕ) (h : ∀ i, i ≠ r → f i = 0) :
    ∀ n, ((List.range n).map f).sum = if r < n then f r else 0
  | 0 => by simp
  | n + 1 => by
    rw [List.range_succ, List.map_append, List.sum_append,
      sumMapRangeSingle f r h n]
    simp only [List.map_cons, List.map_nil, List.sum_cons, List.sum_nil]
    by_cases hc : r < n
    · rw [if_pos hc, if_pos (by omega : r < n + 1), h n (by omega)]
      omega
    · rw [if_neg hc]
      by_cases hc2 : r = n
      · subst hc2
        rw [if_pos (by omega : r < r + 1)]
        omega
      · rw [if_neg (by omega : ¬ r < n + 1), h n (by omega)]
        omega

theorem countP_filterMap_list {α β : Type} (f : α → Option β) (p : β → Bool) :
    ∀ l : List α,
      (l.filterMap f).countP p = l.countP (fun a => ((f a).map p).getD false)
  | [] => rfl
  | a :: l => by
    rw [List.filterMap_cons]
    cases hfa : f a with
    | none =>
      simp only [List.countP_cons, hfa, Option.map_none', Option.getD_none,
        countP_filterMap_list f p l]
      simp
    | some b =>
      rw [List.countP_cons, List.countP_cons, countP_filterMap_list f p l, hfa]
      simp

end DV

namespace DV

/-- C7 (amended): is_empty_value agrees with normalize_value_str being
null on every raw value, and the URL prober's own blank test implies
emptiness but not conversely (see the counterexample). -/
theorem c7_isEmpty_iff_normalize_none :
    (∀ v : Value, is_empty_value v = true ↔ normalize_value_str v = Option.none)
    ∧ (∀ v : Value, url_blank v = true → is_empty_value v = true) := by
  constructor
  · intro v
    cases v with
    | none => simp [is_empty_value, normalize_value_str]
    | nan => simp [is_empty_value, normalize_value_str]
    | str s =>
      simp only [is_empty_value, normalize_value_str]
      by_cases h1 : pyStrip (pyStr (Value.str s)) == ""
      · simp [h1]
      · by_cases h2 : pyLower (pyStrip (pyStr (Value.str s))) == "nan"
        · simp [h1, h2]
        · simp [h1, h2]
    | num m e =>
      simp only [is_empty_value, normalize_value_str]
      by_cases h1 : pyStrip (pyStr (Value.num m e)) == ""
      · simp [h1]
      · by_cases h2 : pyLower (pyStrip (pyStr (Value.num m e))) == "nan"
        · simp [h1, h2]
        · simp [h1, h2]
  · intro v h
    cases v with
    | none => rfl
    | nan => rfl
    | str s =>
      simp only [url_blank, Bool.or_eq_true] at h
      rcases h with h | h
      · rw [beq_iff_eq] at h
        exact Value.noConfusion h
      · simp [is_empty_value, h]
    | num m e =>
      simp only [url_blank, Bool.or_eq_true] at h
      rcases h with h | h
      · rw [beq_iff_eq] at h
        exact Value.noConfusion h
      · simp [is_empty_value, h]

/-- C7 witness: the amended theorem applied at a whitespace-only cell. -/
theorem c7_isEmpty_iff_normalize_none_witness :
    is_empty_value (Value.str " ") = true :=
  c7_isEmpty_iff_normalize_none.2 (Value.str " ") (by decide)

/-- C7 counterexample: the URL prober's blank test disagrees with
is_empty_value on the literal text "nan" and on float NaN, so the
claim that no checker's own blank test disagrees with isEmpty on any
value is false. -/
theorem c7_counterexample :
    is_empty_value (Value.str "nan") = true ∧ url_blank (Value.str "nan") = false ∧
    is_empty_value Value.nan = true ∧ url_blank Value.nan = false := by decide

end DV

namespace DV

/-! Character-level facts behind the idempotence analysis of
normalize_value_str. -/

/-- Composite character action of normalize_value_str after stripping:
NFKC fold then lowercase. -/
def normFoldChar (c : Char) : Char := lowerChar (nfkcChar c)

set_option maxRecDepth 40000 in
theorem nfkcMap_targets_fixed :
    ∀ p ∈ nfkcMap,
      nfkcChar (lowerChar p.2) = lowerChar p.2 ∧
      lowerChar (lowerChar p.2) = lowerChar p.2 ∧
      (isPyWs p.1 = true ∨ isPyWs (lowerChar p.2) = false) := by decide

set_option maxRecDepth 40000 in
theorem lowerMap_out_of_nfkc_fixed :
    ∀ p ∈ lowerMap,
      (nfkcMap.find? (fun q => q.1 == p.1)).isSome = true ∨
      (nfkcChar p.2 = p.2 ∧ lowerChar p.2 = p.2 ∧ isPyWs p.2 = false) := by decide

theorem normFoldChar_fixed (c : Char) :
    nfkcChar (normFoldChar c) = normFoldChar c ∧
    lowerChar (normFoldChar c) = normFoldChar c ∧
    (isPyWs c = false → isPyWs (normFoldChar c) = false) := by
  unfold normFoldChar
  cases hf : nfkcMap.find? (fun q => q.1 == c) with
  | some p =>
    have hmem : p ∈ nfkcMap := List.mem_of_find?_eq_some hf
    have hpb := @List.find?_some _ (fun q : Char × Char => q.1 == c) p nfkcMap hf
    have hpc : p.1 = c := by simpa using hpb
    have hn : nfkcChar c = p.2 := by simp [nfkcChar, tableGet, hf]
    rw [hn]
    rcases nfkcMap_targets_fixed p hmem with ⟨a, b, hws⟩
    refine ⟨a, b, ?_⟩
    intro hc
    rcases hws with hws | hws
    · rw [hpc] at hws
      simp [hws] at hc
    · exact hws
  | none =>
    have hn : nfkcChar c = c := by simp [nfkcChar, tableGet, hf]
    rw [hn]
    cases hf2 : lowerMap.find? (fun q => q.1 == c) with
    | some p =>
      have hmem : p ∈ lowerMap := List.mem_of_find?_eq_some hf2
      have hpb2 := @List.find?_some _ (fun q : Char × Char => q.1 == c) p lowerMap hf2
      have hpc : p.1 = c := by simpa using hpb2
      have hl : lowerChar c = p.2 := by simp [lowerChar, tableGet, hf2]
      rw [hl]
      rcases lowerMap_out_of_nfkc_fixed p hmem with hsm | ⟨a, b, hws⟩
      · rw [hpc, hf] at hsm
        simp at hsm
      · exact ⟨a, b, fun _ => hws⟩
    | none =>
      have hl : lowerChar c = c := by simp [lowerChar, tableGet, hf2]
      rw [hl]
      exact ⟨hn, hl, fun h => h⟩

end DV

namespace DV

theorem stripChars_as_rdrop (l : List Char) :
    stripChars l = List.rdropWhile isPyWs (l.dropWhile isPyWs) := rfl

theorem stripChars_head_not_ws (l : List Char) (h : 0 < (stripChars l).length) :
    isPyWs ((stripChars l).get ⟨0, h⟩) = false := by
  have hpre := List.rdropWhile_prefix isPyWs (l.dropWhile isPyWs)
  have h' : 0 < (List.rdropWhile isPyWs (l.dropWhile isPyWs)).length := h
  have hlen : 0 < (l.dropWhile isPyWs).length := lt_of_lt_of_le h' hpre.length_le
  have hd := List.dropWhile_get_zero_not isPyWs l hlen
  simp only [List.get_eq_getElem] at hd ⊢
  have hg : (stripChars l)[0] = (l.dropWhile isPyWs)[0] := hpre.getElem h'
  rw [hg]
  simpa using hd

theorem stripChars_last_not_ws (l : List Char) (h : stripChars l ≠ []) :
    isPyWs ((stripChars l).getLast h) = false := by
  simpa using List.rdropWhile_last_not isPyWs (l.dropWhile isPyWs) h

theorem stripChars_eq_self_of_ends (x : List Char)
    (h1 : ∀ h0 : 0 < x.length, isPyWs (x.get ⟨0, h0⟩) = false)
    (h2 : ∀ hne : x ≠ [], isPyWs (x.getLast hne) = false) :
    stripChars x = x := by
  rw [stripChars_as_rdrop]
  have hd : x.dropWhile isPyWs = x :=
    List.dropWhile_eq_self_iff.mpr (fun hl => by
      have hx := h1 hl
      simp only [List.get_eq_getElem] at hx
      simp [hx])
  rw [hd]
  exact List.rdropWhile_eq_self_iff.mpr (fun hl => by simp [h2 hl])

/-- Every non-null output of normalize_value_str is the strip of the
Python text of the input, mapped through the NFKC-then-lower character
action. -/
theorem normalize_value_str_eq_some (v : Value) (s : String)
    (h : normalize_value_str v = some s) :
    stripChars (pyStr v).data ≠ [] ∧
    s = String.mk ((stripChars (pyStr v).data).map normFoldChar) := by
  have hshape : ∀ (w : Value), w ≠ Value.none → w ≠ Value.nan →
      normalize_value_str w = some s →
      stripChars (pyStr w).data ≠ [] ∧
      s = String.mk ((stripChars (pyStr w).data).map normFoldChar) := by
    intro w hw1 hw2 hw
    have hcases : normalize_value_str w =
        (if pyStrip (pyStr w) == "" then Option.none
         else if pyLower (pyStrip (pyStr w)) == "nan" then Option.none
         else some (pyLower (nfkcStr (pyStrip (pyStr w))))) := by
      cases w with
      | none => exact absurd rfl hw1
      | nan => exact absurd rfl hw2
      | str s0 => rfl
      | num m e => rfl
    rw [hcases] at hw
    by_cases h1 : pyStrip (pyStr w) == ""
    · rw [if_pos h1] at hw
      exact absurd hw (by simp)
    · rw [if_neg h1] at hw
      by_cases h2 : pyLower (pyStrip (pyStr w)) == "nan"
      · rw [if_pos h2] at hw
        exact absurd hw (by simp)
      · rw [if_neg h2] at hw
        have hsome : pyLower (nfkcStr (pyStrip (pyStr w))) = s := by
          exact Option.some.inj hw
        constructor
        · intro hc
          apply h1
          have hps0 : pyStrip (pyStr w) = "" := by
            simp only [pyStrip, hc]
          simp [hps0]
        · rw [← hsome]
          show String.mk (((stripChars (pyStr w).data).map nfkcChar).map lowerChar) = _
          rw [List.map_map]
          rfl
  cases v with
  | none => exact absurd h (by simp [normalize_value_str])
  | nan => exact absurd h (by simp [normalize_value_str])
  | str s0 => exact hshape (Value.str s0) (by simp) (by simp) h
  | num m e => exact hshape (Value.num m e) (by simp) (by simp) h

/-- Application of normalize_value_str to one of its own non-null,
non-"nan" outputs returns it unchanged. -/
theorem normalize_of_normalized (l : List Char)
    (hne : stripChars l ≠ [])
    (hnan : String.mk ((stripChars l).map normFoldChar) ≠ "nan") :
    normalize_value_str (Value.str (String.mk ((stripChars l).map normFoldChar)))
      = some (String.mk ((stripChars l).map normFoldChar)) := by
  have hu_ne : (stripChars l).map normFoldChar ≠ [] := by
    intro hc
    exact hne (List.map_eq_nil_iff.mp hc)
  have hhead : ∀ h0 : 0 < ((stripChars l).map normFoldChar).length,
      isPyWs (((stripChars l).map normFoldChar).get ⟨0, h0⟩) = false := by
    intro h0
    have h0' : 0 < (stripChars l).length := by
      simpa using h0
    simp only [List.get_eq_getElem, List.getElem_map]
    exact (normFoldChar_fixed _).2.2 (stripChars_head_not_ws l h0')
  have hlast : ∀ hne2 : (stripChars l).map normFoldChar ≠ [],
      isPyWs (((stripChars l).map normFoldChar).getLast hne2) = false := by
    intro hne2
    rw [List.getLast_map]
    exact (normFoldChar_fixed _).2.2 (stripChars_last_not_ws l hne)
  have hstrip : stripChars ((stripChars l).map normFoldChar)
      = (stripChars l).map normFoldChar :=
    stripChars_eq_self_of_ends _ hhead hlast
  have hlower : ((stripChars l).map normFoldChar).map lowerChar
      = (stripChars l).map normFoldChar := by
    rw [List.map_map]
    apply List.map_congr_left
    intro c _
    exact (normFoldChar_fixed c).2.1
  have hnfkc : ((stripChars l).map normFoldChar).map nfkcChar
      = (stripChars l).map normFoldChar := by
    rw [List.map_map]
    apply List.map_congr_left
    intro c _
    exact (normFoldChar_fixed c).1
  have hps : pyStrip (String.mk ((stripChars l).map normFoldChar))
      = String.mk ((stripChars l).map normFoldChar) := by
    simp only [pyStrip, hstrip]
  have hcond1 : (pyStrip (String.mk ((stripChars l).map normFoldChar)) == "") = false := by
    rw [hps]
    rw [beq_eq_false_iff_ne]
    intro hc
    apply hu_ne
    exact congrArg String.data hc
  have hplower : pyLower (String.mk ((stripChars l).map normFoldChar))
      = String.mk ((stripChars l).map normFoldChar) := by
    simp only [pyLower, hlower]
  have hcond2 : (pyLower (pyStrip (String.mk ((stripChars l).map normFoldChar))) == "nan")
      = false := by
    rw [hps, hplower, beq_eq_false_iff_ne]
    exact hnan
  show (if (pyStrip (String.mk ((stripChars l).map normFoldChar)) == "") = true
      then Option.none
      else if (pyLower (pyStrip (String.mk ((stripChars l).map normFoldChar))) == "nan") = true
      then Option.none
      else some (pyLower (nfkcStr (pyStrip (String.mk ((stripChars l).map normFoldChar))))))
    = some (String.mk ((stripChars l).map normFoldChar))
  rw [hcond1, hcond2]
  simp only [if_neg (by simp : ¬ (false = true))]
  rw [hps]
  have hnf : nfkcStr (String.mk ((stripChars l).map normFoldChar))
      = String.mk ((stripChars l).map normFoldChar) := by
    simp only [nfkcStr, hnfkc]
  rw [hnf, hplower]

/-- Composition normalizeValue after normalizeValue, reading the first
result back as a cell (null results stay null). -/
def normTwice (x : Value) : Option String :=
  match normalize_value_str x with
  | some s => normalize_value_str (Value.str s)
  | Option.none => Option.none

/-- C8 (amended): normalize_value_str is idempotent on every input
whose normalized form is not the literal text "nan"; a null result
stays null.  (Idempotence fails exactly on values normalizing to
"nan"; see the counterexample.) -/
theorem c8_normalize_idempotent_off_nan (x : Value)
    (h : normalize_value_str x ≠ some "nan") :
    normTwice x = normalize_value_str x := by
  unfold normTwice
  cases hx : normalize_value_str x with
  | none => rfl
  | some s =>
    obtain ⟨hne, hs⟩ := normalize_value_str_eq_some x s hx
    have hnan : s ≠ "nan" := by
      intro hc
      exact h (hc ▸ hx)
    rw [hs]
    exact normalize_of_normalized (pyStr x).data hne (hs ▸ hnan)

/-- C8 witness: idempotence at an ordinary shape value. -/
theorem c8_normalize_idempotent_off_nan_witness :
    normTwice (Value.str " Round ") = normalize_value_str (Value.str " Round ") :=
  c8_normalize_idempotent_off_nan (Value.str " Round ") (by decide)

/-- C8 counterexample: the fullwidth text "ＮａＮ" normalizes to the
string "nan", on which a second application of the normalizer yields
null, so normalizeValue(normalizeValue(x)) differs from
normalizeValue(x) there. -/
theorem c8_counterexample :
    normalize_value_str (Value.str "ＮａＮ") = some "nan" ∧
    normTwice (Value.str "ＮａＮ") = Option.none ∧
    normTwice (Value.str "ＮａＮ") ≠ normalize_value_str (Value.str "ＮａＮ") := by decide

end DV

namespace DV

/-- C5 (amended): header reconciliation processes every column
independently and keeps all of them: a column whose normalized header
hits the synonym map is renamed in place with its cells unchanged, a
miss is kept unchanged and recorded in unknownHeaders; when several
source columns map to the same canonical field they all survive as
duplicate labels — no column overwrites another. -/
theorem c5_normalize_headers_pointwise (df : Table) (hm : String → Option String) :
    ((normalize_headers df hm).1.cols.length = df.cols.length)
    ∧ (∀ i c, df.cols.get? i = some c →
        (normalize_headers df hm).1.cols.get? i =
          some (match (normalize_header_name (Value.str c.name)).bind hm with
                | some n => { c with name := n }
                | Option.none => c))
    ∧ ((normalize_headers df hm).2 =
        (df.cols.filter
          (fun c => ((normalize_header_name (Value.str c.name)).bind hm).isNone)).map
          Col.name) := by
  refine ⟨?_, ?_, ?_⟩
  · simp [normalize_headers]
  · intro i c hc
    simp only [normalize_headers, List.get?_eq_getElem?, List.getElem?_map] at hc ⊢
    rw [hc]
    rfl
  · rfl

/-- C5 witness: the pointwise description applied to a one-column
table whose header hits the synonym map. -/
theorem c5_normalize_headers_pointwise_witness :
    (normalize_headers ⟨[⟨"Stock", [Value.str "a"]⟩]⟩
        (fun s => if s == "stock" then some "stock_num" else Option.none)).1.cols.get? 0
      = some ⟨"stock_num", [Value.str "a"]⟩ := by
  have h := (c5_normalize_headers_pointwise ⟨[⟨"Stock", [Value.str "a"]⟩]⟩
    (fun s => if s == "stock" then some "stock_num" else Option.none)).2.1
    0 ⟨"Stock", [Value.str "a"]⟩ rfl
  rw [h]
  decide

/-- C5 counterexample: two source columns reconciled to the same
canonical field are both present afterwards (duplicate labels); the
reconciled table is not the single-column table that last-write-wins
replacement would produce, so the later duplicate does not overwrite
the earlier one. -/
theorem c5_counterexample :
    normalize_headers ⟨[⟨"a", [Value.str "x"]⟩, ⟨"b", [Value.str "y"]⟩]⟩
        (fun s => if s == "a" || s == "b" then some "shape" else Option.none)
      = (⟨[⟨"shape", [Value.str "x"]⟩, ⟨"shape", [Value.str "y"]⟩]⟩, [])
    ∧ (⟨[⟨"shape", [Value.str "x"]⟩, ⟨"shape", [Value.str "y"]⟩]⟩ : Table)
      ≠ ⟨[⟨"shape", [Value.str "y"]⟩]⟩ := by decide

theorem mandatoryRowIssues_row (df : Table) (j : ℕ) :
    ∀ iss ∈ mandatoryRowIssues df j, iss.row = j + 2 := by
  intro iss hin
  simp only [mandatoryRowIssues, List.mem_filterMap] at hin
  obtain ⟨col, _, hcol⟩ := hin
  cases hfc : df.findCol col with
  | none =>
    simp only [hfc] at hcol
    exact Option.noConfusion hcol
  | some c =>
    simp only [hfc] at hcol
    by_cases he : is_empty_value (c.cellD j) = true
    · rw [if_pos he] at hcol
      cases hcol
      rfl
    · rw [if_neg he] at hcol
      exact absurd hcol (by simp)

theorem countP_keyed (l : List String) (hnd : l.Nodup) (col : String)
    (hmem : col ∈ l) (q : String → Bool) (hq : ∀ c', q c' = true → c' = col) :
    l.countP q = if q col then 1 else 0 := by
  induction l with
  | nil => exact absurd hmem (by simp)
  | cons a l ih =>
    rw [List.countP_cons]
    by_cases hac : a = col
    · have hrest : l.countP q = 0 := by
        rw [List.countP_eq_zero]
        intro c' hc' hqc
        rw [hq c' hqc, ← hac] at hc'
        exact (List.nodup_cons.mp hnd).1 hc'
      rw [hrest, hac]
      cases hqc : q col <;> simp [hqc]
    · have hmem' : col ∈ l := by
        rcases List.mem_cons.mp hmem with h | h
        · exact absurd h.symm hac
        · exact h
      have hqa : ¬ q a = true := fun hc => hac (hq a hc)
      rw [if_neg hqa, Nat.add_zero]
      exact ih (List.nodup_cons.mp hnd).2 hmem'

/-- C2 (amended): a mandatory field is listed for a row by
check_mandatory exactly when its column is absent from the table or
its cell is empty; the structured builder build_mandatory_issues,
however, emits exactly one (row, field) issue when the column is
present with an empty cell, and no issue at all when the column is
absent from the table. -/
theorem c2_mandatory (df : Table) (i : ℕ) (col : String)
    (hi : i < df.nRows) (hcol : col ∈ MANDATORY_COLS) :
    ((col ∈ missingColsAt df i) ↔
      (df.findCol col = Option.none ∨
        ∃ c, df.findCol col = some c ∧ is_empty_value (c.cellD i) = true))
    ∧ ((build_mandatory_issues df).countP
        (fun iss => iss.row == i + 2 && iss.col == col) =
      if _h : ∃ c, df.findCol col = some c ∧ is_empty_value (c.cellD i) = true
      then 1 else 0) := by
  constructor
  · simp only [missingColsAt, List.mem_filter]
    constructor
    · rintro ⟨-, hpred⟩
      cases hfc : df.findCol col with
      | none => exact Or.inl rfl
      | some c =>
        simp only [hfc] at hpred
        exact Or.inr ⟨c, rfl, hpred⟩
    · rintro (hfc | ⟨c, hfc, he⟩)
      · refine ⟨hcol, ?_⟩
        simp only [hfc]
      · refine ⟨hcol, ?_⟩
        simp only [hfc]
        exact he
  · unfold build_mandatory_issues
    rw [List.countP_flatten, List.map_map]
    have hzero : ∀ j, j ≠ i →
        ((List.countP (fun iss : MIssue => iss.row == i + 2 && iss.col == col))
          ∘ (mandatoryRowIssues df)) j = 0 := by
      intro j hj
      show (mandatoryRowIssues df j).countP _ = 0
      rw [List.countP_eq_zero]
      intro iss hiss
      have hrow := mandatoryRowIssues_row df j iss hiss
      simp only [Bool.and_eq_true, beq_iff_eq]
      rintro ⟨h1, -⟩
      omega
    have hsum := sumMapRangeSingle
      ((List.countP (fun iss : MIssue => iss.row == i + 2 && iss.col == col))
        ∘ (mandatoryRowIssues df)) i hzero df.nRows
    rw [hsum, if_pos hi]
    show (mandatoryRowIssues df i).countP
      (fun iss => iss.row == i + 2 && iss.col == col) = _
    unfold mandatoryRowIssues
    rw [countP_filterMap_list]
    refine Eq.trans (countP_keyed MANDATORY_COLS (by decide) col hcol _ ?_) ?_
    · intro c' hq
      cases hfc : df.findCol c' with
      | none => simp [hfc] at hq
      | some c =>
        simp only [hfc] at hq
        by_cases he : is_empty_value (c.cellD i) = true
        · rw [if_pos he] at hq
          simp only [Option.map_some', Option.getD_some, Bool.and_eq_true,
            beq_iff_eq] at hq
          exact hq.2
        · rw [if_neg he] at hq
          simp at hq
    · cases hfc : df.findCol col with
      | none =>
        simp only [hfc, Option.map_none', Option.getD_none]
        rw [if_neg (by simp), dif_neg]
        rintro ⟨c, hc, -⟩
        exact Option.noConfusion hc
      | some c =>
        simp only [hfc]
        by_cases he : is_empty_value (c.cellD i) = true
        · simp [he]
        · simp only [Bool.not_eq_true] at he
          simp [he]


/-- C2 witness: the amended statement applied to a table with an empty
shape cell and no lab column. -/
theorem c2_mandatory_witness :
    (build_mandatory_issues ⟨[⟨"shape", [Value.str ""]⟩]⟩).countP
        (fun iss => iss.row == 2 && iss.col == "shape") = 1 := by
  have h := (c2_mandatory ⟨[⟨"shape", [Value.str ""]⟩]⟩ 0 "shape"
    (by decide) (by decide)).2
  rw [h, dif_pos ⟨⟨"shape", [Value.str ""]⟩, by decide, by decide⟩]

/-- C2 counterexample: with the stock_num column absent from the
table, check_mandatory lists it for the row, but the structured
builder emits no Missing-Mandatory issue at all for the (row, field)
pair, refuting the claimed "issue iff absent or empty". -/
theorem c2_counterexample :
    ("stock_num" ∈ MANDATORY_COLS)
    ∧ Table.findCol ⟨[⟨"foo", [Value.str "x"]⟩]⟩ "stock_num" = Option.none
    ∧ build_mandatory_issues ⟨[⟨"foo", [Value.str "x"]⟩]⟩ = []
    ∧ check_mandatory ⟨[⟨"foo", [Value.str "x"]⟩]⟩ = [(2, MANDATORY_COLS)] := by
  decide

end DV

namespace DV

theorem mem_rangeCheckCells (name kind : String) (iss : RIssue) :
    ∀ (cells : List Value) (k : ℕ),
      iss ∈ rangeCheckCells name kind k cells ↔
        ∃ j v, cells.get? j = some v ∧
          iss = ⟨k + j + 2, name, v, kind⟩ ∧
          is_empty_value v = false ∧
          ∃ f, rangeParse v = some f ∧ pyLe0 f = true
  | [], k => by simp [rangeCheckCells]
  | v :: vs, k => by
    simp only [rangeCheckCells, List.mem_append]
    constructor
    · rintro (hmem | hmem)
      · by_cases he : is_empty_value v = true
        · rw [if_pos he] at hmem
          simp at hmem
        · rw [if_neg he] at hmem
          cases hp : rangeParse v with
          | none =>
            simp only [hp] at hmem
            simp at hmem
          | some f =>
            simp only [hp] at hmem
            by_cases hle : pyLe0 f = true
            · rw [if_pos hle] at hmem
              simp only [List.mem_singleton] at hmem
              refine ⟨0, v, rfl, ?_, Bool.not_eq_true _ ▸ he, f, hp, hle⟩
              rw [hmem]
            · rw [if_neg hle] at hmem
              simp at hmem
      · obtain ⟨j, v', hget, hiss, hne, f, hp, hle⟩ :=
          (mem_rangeCheckCells name kind iss vs (k + 1)).mp hmem
        refine ⟨j + 1, v', hget, ?_, hne, f, hp, hle⟩
        rw [hiss]
        have : k + 1 + j + 2 = k + (j + 1) + 2 := by omega
        rw [this]
    · rintro ⟨j, v', hget, hiss, hne, f, hp, hle⟩
      cases j with
      | zero =>
        have hv : v' = v := by
          simp only [List.get?_cons_zero] at hget
          exact (Option.some.inj hget).symm
        subst hv
        left
        rw [if_neg (by simp [hne])]
        simp only [hp]
        rw [if_pos hle]
        simp only [List.mem_singleton]
        rw [hiss]
      | succ j' =>
        right
        apply (mem_rangeCheckCells name kind iss vs (k + 1)).mpr
        refine ⟨j', v', by simpa using hget, ?_, hne, f, hp, hle⟩
        rw [hiss]
        have : k + (j' + 1) + 2 = k + 1 + j' + 2 := by omega
        rw [this]

/-- C3 (amended): a weight- or price-named column cell is flagged by
check_numeric_ranges exactly when it is non-empty and its
comma-stripped text parses through Python float() to a value at most
zero (this is float(str(val).replace(",", "")), not the
character-stripping to_float of the price checker); and every numeric
range issue is attributed to a weight- or price-named column. -/
theorem c3_numeric_range (df : Table) (c : Col) (hc : c ∈ df.cols)
    (hname : weightColNames.contains c.name = true ∨ priceColNames.contains c.name = true)
    (i : ℕ) (v : Value) (hv : c.cells.get? i = some v) :
    ((∃ iss ∈ check_numeric_ranges df, iss.row = i + 2 ∧ iss.col = c.name ∧ iss.value = v) ↔
      (is_empty_value v = false ∧ ∃ f, rangeParse v = some f ∧ pyLe0 f = true))
    ∧ (∀ iss ∈ check_numeric_ranges df,
        weightColNames.contains iss.col = true ∨ priceColNames.contains iss.col = true) := by
  have hmem_check : ∀ iss : RIssue, iss ∈ check_numeric_ranges df ↔
      (∃ c' ∈ df.cols, weightColNames.contains c'.name = true ∧
        iss ∈ rangeCheckCells c'.name "carat" 0 c'.cells) ∨
      (∃ c' ∈ df.cols, priceColNames.contains c'.name = true ∧
        iss ∈ rangeCheckCells c'.name "price" 0 c'.cells) := by
    intro iss
    simp only [check_numeric_ranges, List.mem_append, List.mem_flatten,
      List.mem_map, List.mem_filter]
    constructor
    · rintro (⟨l, ⟨c', ⟨hcm, hcp⟩, hl⟩, hin⟩ | ⟨l, ⟨c', ⟨hcm, hcp⟩, hl⟩, hin⟩)
      · exact Or.inl ⟨c', hcm, hcp, hl ▸ hin⟩
      · exact Or.inr ⟨c', hcm, hcp, hl ▸ hin⟩
    · rintro (⟨c', hcm, hcp, hin⟩ | ⟨c', hcm, hcp, hin⟩)
      · exact Or.inl ⟨rangeCheckCells c'.name "carat" 0 c'.cells,
          ⟨c', ⟨hcm, hcp⟩, rfl⟩, hin⟩
      · exact Or.inr ⟨rangeCheckCells c'.name "price" 0 c'.cells,
          ⟨c', ⟨hcm, hcp⟩, rfl⟩, hin⟩
  constructor
  · constructor
    · rintro ⟨iss, hin, hrow, hcol, hval⟩
      rcases (hmem_check iss).mp hin with ⟨c', -, -, hrc⟩ | ⟨c', -, -, hrc⟩ <;>
      · obtain ⟨j, w, -, hiss, hne, f, hp, hle⟩ :=
          (mem_rangeCheckCells _ _ iss c'.cells 0).mp hrc
        have hw : w = v := by
          rw [hiss] at hval
          exact hval
        subst hw
        exact ⟨hne, f, hp, hle⟩
    · rintro ⟨hne, f, hp, hle⟩
      refine ⟨⟨i + 2, c.name, v, if weightColNames.contains c.name then "carat" else "price"⟩,
        ?_, rfl, rfl, rfl⟩
      apply (hmem_check _).mpr
      by_cases hw : weightColNames.contains c.name = true
      · left
        refine ⟨c, hc, hw, ?_⟩
        rw [if_pos hw]
        apply (mem_rangeCheckCells _ _ _ c.cells 0).mpr
        exact ⟨i, v, hv, by rw [Nat.zero_add], hne, f, hp, hle⟩
      · right
        rcases hname with hname | hname
        · exact absurd hname hw
        refine ⟨c, hc, hname, ?_⟩
        rw [if_neg hw]
        apply (mem_rangeCheckCells _ _ _ c.cells 0).mpr
        exact ⟨i, v, hv, by rw [Nat.zero_add], hne, f, hp, hle⟩
  · intro iss hin
    rcases (hmem_check iss).mp hin with ⟨c', -, hcn, hrc⟩ | ⟨c', -, hcn, hrc⟩ <;>
    · obtain ⟨j, v', -, hiss, -⟩ := (mem_rangeCheckCells _ _ iss c'.cells 0).mp hrc
      rw [hiss]
      first
      | exact Or.inl hcn
      | exact Or.inr hcn

/-- C3 witness: the amended statement produces the issue for a
negative carat cell. -/
theorem c3_numeric_range_witness :
    ∃ iss ∈ check_numeric_ranges ⟨[⟨"carat", [Value.str "-3"]⟩]⟩,
      iss.row = 0 + 2 ∧ iss.col = "carat" ∧ iss.value = Value.str "-3" :=
  ((c3_numeric_range ⟨[⟨"carat", [Value.str "-3"]⟩]⟩ ⟨"carat", [Value.str "-3"]⟩
    (by simp) (Or.inl (by decide)) 0 (Value.str "-3") rfl).1).mpr
    ⟨by decide, PyF.finite ⟨-3, 0⟩, by decide, by decide⟩

/-- C3 counterexample: the cell "$-5" in a carat column is non-empty
and toNumber (the character-stripping parser of the price checker)
parses it to -5 <= 0, yet check_numeric_ranges emits nothing, because
the range checker only strips commas before calling float() and
float("$-5") fails; this refutes the claimed iff against toNumber. -/
theorem c3_counterexample :
    check_numeric_ranges ⟨[⟨"carat", [Value.str "$-5"]⟩]⟩ = []
    ∧ is_empty_value (Value.str "$-5") = false
    ∧ to_float (Value.str "$-5") = some ⟨-5, 0⟩
    ∧ (Dec.val ⟨-5, 0⟩ ≤ 0)
    ∧ weightColNames.contains "carat" = true := by
  refine ⟨by decide, by decide, by decide, ?_, by decide⟩
  rw [Dec.val_nonpos_iff]
  decide

end DV

namespace DV

theorem mem_valueCheckCells (name : String) (allowed : List String) (iss : VIssue) :
    ∀ (cells : List Value) (k : ℕ),
      iss ∈ valueCheckCells name allowed k cells ↔
        ∃ j v, cells.get? j = some v ∧
          iss = ⟨k + j + 2, name, v⟩ ∧
          ∃ nv, normalize_value_str v = some nv ∧ allowed.contains nv = false
  | [], k => by simp [valueCheckCells]
  | v :: vs, k => by
    simp only [valueCheckCells, List.mem_append]
    constructor
    · rintro (hmem | hmem)
      · cases hn : normalize_value_str v with
        | none =>
          simp only [hn] at hmem
          simp at hmem
        | some nv =>
          simp only [hn] at hmem
          by_cases ha : allowed.contains nv = true
          · rw [if_pos ha] at hmem
            simp at hmem
          · rw [if_neg ha] at hmem
            simp only [List.mem_singleton] at hmem
            refine ⟨0, v, rfl, ?_, nv, hn, Bool.not_eq_true _ ▸ ha⟩
            rw [hmem]
      · obtain ⟨j, w, hget, hiss, nv, hn, ha⟩ :=
          (mem_valueCheckCells name allowed iss vs (k + 1)).mp hmem
        refine ⟨j + 1, w, hget, ?_, nv, hn, ha⟩
        rw [hiss]
        have harith : k + 1 + j + 2 = k + (j + 1) + 2 := by omega
        rw [harith]
    · rintro ⟨j, w, hget, hiss, nv, hn, ha⟩
      cases j with
      | zero =>
        have hw : w = v := by
          simp only [List.get?_cons_zero] at hget
          exact (Option.some.inj hget).symm
        subst hw
        left
        simp only [hn]
        rw [if_neg (by simp only [ha]; simp)]
        simp only [List.mem_singleton]
        rw [hiss]
      | succ j' =>
        right
        apply (mem_valueCheckCells name allowed iss vs (k + 1)).mpr
        refine ⟨j', w, by simpa using hget, ?_, nv, hn, ha⟩
        rw [hiss]
        have harith : k + (j' + 1) + 2 = k + 1 + j' + 2 := by omega
        rw [harith]

theorem mem_check_values (df : Table) (rules : VRules) (iss : VIssue) :
    iss ∈ check_values df rules ↔
      ∃ c' ∈ df.cols, ∃ vt r,
        normalize_header_name (Value.str c'.name) = some vt ∧
        getRule rules vt = some r ∧ r.wildcard = false ∧
        iss ∈ valueCheckCells c'.name r.allowed 0 c'.cells := by
  simp only [check_values, List.mem_flatten, List.mem_map]
  constructor
  · rintro ⟨l, ⟨c', hcm, hl⟩, hin⟩
    cases hn : normalize_header_name (Value.str c'.name) with
    | none =>
      simp only [hn] at hl
      rw [← hl] at hin
      simp at hin
    | some vt =>
      simp only [hn] at hl
      cases hr : getRule rules vt with
      | none =>
        simp only [hr] at hl
        rw [← hl] at hin
        simp at hin
      | some r =>
        simp only [hr] at hl
        by_cases hw : r.wildcard = true
        · rw [if_pos hw] at hl
          rw [← hl] at hin
          simp at hin
        · rw [if_neg hw] at hl
          rw [← hl] at hin
          exact ⟨c', hcm, vt, r, hn, hr, Bool.not_eq_true _ ▸ hw, hin⟩
  · rintro ⟨c', hcm, vt, r, hn, hr, hw, hin⟩
    refine ⟨valueCheckCells c'.name r.allowed 0 c'.cells, ⟨c', hcm, ?_⟩, hin⟩
    simp only [hn, hr]
    rw [if_neg (by simp [hw])]

/-- C9 (confirmed): wildcard-ruled columns never yield a
Value-Membership issue; a non-wildcard ruled column's cell yields an
issue (carrying the raw pre-normalization value) exactly when its
normalized value exists and is outside the allowed set; and every
Value-Membership issue comes from a column with a non-wildcard rule
(columns with no rule are never checked). -/
theorem c9_value_membership (df : Table) (rules : VRules) :
    (∀ (n : String) (vt : String) (r : VRule),
      normalize_header_name (Value.str n) = some vt →
      getRule rules vt = some r → r.wildcard = true →
      ∀ iss ∈ check_values df rules, iss.col ≠ n)
    ∧ (∀ (c : Col), c ∈ df.cols →
        ∀ (vt : String) (r : VRule),
          normalize_header_name (Value.str c.name) = some vt →
          getRule rules vt = some r → r.wildcard = false →
          ∀ (i : ℕ) (v : Value), c.cells.get? i = some v →
            ((∃ iss ∈ check_values df rules,
                iss.row = i + 2 ∧ iss.col = c.name ∧ iss.value = v) ↔
              (∃ nv, normalize_value_str v = some nv ∧
                r.allowed.contains nv = false)))
    ∧ (∀ iss ∈ check_values df rules, ∃ vt r,
        normalize_header_name (Value.str iss.col) = some vt ∧
        getRule rules vt = some r ∧ r.wildcard = false) := by
  refine ⟨?_, ?_, ?_⟩
  · intro n vt r hn hr hw iss hin hcoln
    obtain ⟨c', -, vt', r', hn', hr', hw', hmem⟩ :=
      (mem_check_values df rules iss).mp hin
    obtain ⟨j, w, -, hiss, -⟩ :=
      (mem_valueCheckCells _ _ iss c'.cells 0).mp hmem
    have hcn : c'.name = n := by
      rw [hiss] at hcoln
      exact hcoln
    rw [hcn] at hn'
    rw [hn'] at hn
    cases Option.some.inj hn
    rw [hr'] at hr
    cases Option.some.inj hr
    rw [hw] at hw'
    exact Bool.noConfusion hw'
  · intro c hc vt r hn hr hw i v hv
    constructor
    · rintro ⟨iss, hin, hrow, hcol, hval⟩
      obtain ⟨c', -, vt', r', hn', hr', hw', hmem⟩ :=
        (mem_check_values df rules iss).mp hin
      obtain ⟨j, w, -, hiss, nv, hnv, hna⟩ :=
        (mem_valueCheckCells _ _ iss c'.cells 0).mp hmem
      have hcn : c'.name = c.name := by
        rw [hiss] at hcol
        exact hcol
      rw [hcn, hn] at hn'
      cases Option.some.inj hn'
      rw [hr] at hr'
      cases Option.some.inj hr'
      have hw' : w = v := by
        rw [hiss] at hval
        exact hval
      subst hw'
      exact ⟨nv, hnv, hna⟩
    · rintro ⟨nv, hnv, hna⟩
      refine ⟨⟨i + 2, c.name, v⟩, ?_, rfl, rfl, rfl⟩
      apply (mem_check_values df rules _).mpr
      refine ⟨c, hc, vt, r, hn, hr, hw, ?_⟩
      apply (mem_valueCheckCells _ _ _ c.cells 0).mpr
      exact ⟨i, v, hv, by rw [Nat.zero_add], nv, hnv, hna⟩
  · intro iss hin
    obtain ⟨c', -, vt', r', hn', hr', hw', hmem⟩ :=
      (mem_check_values df rules iss).mp hin
    obtain ⟨j, w, -, hiss, -⟩ :=
      (mem_valueCheckCells _ _ iss c'.cells 0).mp hmem
    refine ⟨vt', r', ?_, hr', hw'⟩
    rw [hiss]
    exact hn'

/-- C9 witness: a cell outside the allowed set of a ruled column is
flagged with its raw value, via the amended iff at a concrete table. -/
theorem c9_value_membership_witness :
    ∃ iss ∈ check_values ⟨[⟨"shape", [Value.str "Blobby"]⟩]⟩
        [("shape", ⟨false, ["round", "pear"]⟩)],
      iss.row = 0 + 2 ∧ iss.col = "shape" ∧ iss.value = Value.str "Blobby" :=
  ((c9_value_membership ⟨[⟨"shape", [Value.str "Blobby"]⟩]⟩
      [("shape", ⟨false, ["round", "pear"]⟩)]).2.1
    ⟨"shape", [Value.str "Blobby"]⟩ (by simp) "shape" ⟨false, ["round", "pear"]⟩
    (by decide) (by decide) rfl 0 (Value.str "Blobby") rfl).mpr
    ⟨"blobby", by decide, by decide⟩

end DV

namespace DV

/-! Value-rule construction invariants. -/

theorem find?_map_keyed (g : (String × VRule) → (String × VRule))
    (hg : ∀ p, (g p).1 = p.1) (n : String) :
    ∀ rs : VRules,
      List.find? (fun p => p.1 == n) (rs.map g)
        = (List.find? (fun p => p.1 == n) rs).map g
  | [] => rfl
  | p :: rs => by
    simp only [List.map_cons]
    by_cases h : (p.1 == n) = true
    · rw [@List.find?_cons_of_pos _ (fun q => q.1 == n) (g p) (rs.map g)
          (by show ((g p).1 == n) = true; rw [hg p]; exact h),
        @List.find?_cons_of_pos _ (fun q => q.1 == n) p rs h]
      rfl
    · rw [@List.find?_cons_of_neg _ (fun q => q.1 == n) (g p) (rs.map g)
          (by show ¬ ((g p).1 == n) = true; rw [hg p]; exact h),
        @List.find?_cons_of_neg _ (fun q => q.1 == n) p rs h]
      exact find?_map_keyed g hg n rs

theorem getRule_setWildcard (rs : VRules) (k n : String) :
    getRule (setWildcard rs k) n
      = (getRule rs n).map
          (fun r =>
            if k == n then ⟨true, r.allowed⟩ else r) := by
  unfold getRule setWildcard
  rw [find?_map_keyed _ (fun p => by by_cases h : (p.1 == k) = true <;> simp [h])]
  cases hf : List.find? (fun p => p.1 == n) rs with
  | none => rfl
  | some p =>
    have hpn : p.1 = n := by
      have := @List.find?_some _ (fun p : String × VRule => p.1 == n) p rs hf
      simpa using this
    simp only [Option.map_some']
    by_cases hk : (p.1 == k) = true
    · rw [if_pos hk]
      have hkn : (k == n) = true := by
        rw [beq_iff_eq] at hk ⊢
        rw [← hk, hpn]
      rw [if_pos hkn]
    · rw [if_neg hk]
      have hkn : ¬ (k == n) = true := by
        intro hc
        apply hk
        rw [beq_iff_eq] at hc ⊢
        rw [hpn, hc]
      rw [if_neg hkn]

theorem getRule_addAllowed (rs : VRules) (k n : String) (nm : String) :
    getRule (addAllowed rs k nm) n
      = (getRule rs n).map
          (fun r =>
            if k == n then ⟨r.wildcard, r.allowed ++ [nm]⟩ else r) := by
  unfold getRule addAllowed
  rw [find?_map_keyed _ (fun p => by by_cases h : (p.1 == k) = true <;> simp [h])]
  cases hf : List.find? (fun p => p.1 == n) rs with
  | none => rfl
  | some p =>
    have hpn : p.1 = n := by
      have := @List.find?_some _ (fun p : String × VRule => p.1 == n) p rs hf
      simpa using this
    simp only [Option.map_some']
    by_cases hk : (p.1 == k) = true
    · rw [if_pos hk]
      have hkn : (k == n) = true := by
        rw [beq_iff_eq] at hk ⊢
        rw [← hk, hpn]
      rw [if_pos hkn]
    · rw [if_neg hk]
      have hkn : ¬ (k == n) = true := by
        intro hc
        apply hk
        rw [beq_iff_eq] at hc ⊢
        rw [hpn, hc]
      rw [if_neg hkn]

theorem getRule_ensure (rs : VRules) (k n : String) (r : VRule)
    (h : getRule rs n = some r) : getRule (ensureRule rs k) n = some r := by
  unfold ensureRule
  by_cases hp : (getRule rs k).isSome = true
  · rw [if_pos hp]
    exact h
  · rw [if_neg hp]
    unfold getRule at h ⊢
    rw [List.find?_append]
    cases hf : List.find? (fun p => p.1 == n) rs with
    | none =>
      rw [hf] at h
      exact Option.noConfusion h
    | some p =>
      rw [hf] at h
      exact h

theorem getRule_ensure_self (rs : VRules) (k : String) :
    (getRule (ensureRule rs k) k).isSome = true := by
  unfold ensureRule
  by_cases hp : (getRule rs k).isSome = true
  · rw [if_pos hp]
    exact hp
  · rw [if_neg hp]
    unfold getRule at hp ⊢
    rw [List.find?_append]
    cases hf : List.find? (fun p => p.1 == k) rs with
    | none =>
      rw [@List.find?_cons_of_pos _ (fun p : String × VRule => p.1 == k)
        (k, VRule.mk false []) [] (by simp)]
      rfl
    | some p =>
      rw [hf] at hp
      exact absurd rfl hp

end DV

namespace DV

theorem getRule_addAllowed_wildcard (rs : VRules) (k nm n : String) (r : VRule)
    (h : getRule rs n = some r) :
    ∃ r', getRule (addAllowed rs k nm) n = some r' ∧ r'.wildcard = r.wildcard := by
  rw [getRule_addAllowed, h]
  by_cases hk : (k == n) = true
  · refine ⟨⟨r.wildcard, r.allowed ++ [nm]⟩, ?_, rfl⟩
    simp only [Option.map_some', if_pos hk]
  · refine ⟨r, ?_, rfl⟩
    simp only [Option.map_some', if_neg hk]

theorem foldl_addAllowed_wildcard (vt n : String) :
    ∀ (l : List String) (rs : VRules) (r : VRule),
      getRule rs n = some r →
      ∃ r', getRule
          (l.foldl (fun acc nm => if nm == "any" then acc else addAllowed acc vt nm) rs) n
        = some r' ∧ r'.wildcard = r.wildcard
  | [], rs, r, h => ⟨r, h, rfl⟩
  | nm :: l, rs, r, h => by
    simp only [List.foldl_cons]
    by_cases ha : (nm == "any") = true
    · rw [if_pos ha]
      exact foldl_addAllowed_wildcard vt n l rs r h
    · rw [if_neg ha]
      obtain ⟨r1, h1, hw1⟩ := getRule_addAllowed_wildcard rs vt nm n r h
      obtain ⟨r2, h2, hw2⟩ := foldl_addAllowed_wildcard vt n l _ r1 h1
      exact ⟨r2, h2, by rw [hw2, hw1]⟩

theorem loadValueRow_wildcard_mono (rs : VRules) (row : ValuesRow) (n : String) (r : VRule)
    (h : getRule rs n = some r) (hw : r.wildcard = true) :
    ∃ r', getRule (loadValueRow rs row) n = some r' ∧ r'.wildcard = true := by
  cases hn : normalize_header_name row.vtype with
  | none =>
    simp only [loadValueRow, hn]
    exact ⟨r, h, hw⟩
  | some vt =>
    simp only [loadValueRow, hn]
    have h1 := getRule_ensure rs vt n r h
    by_cases hc : (normalize_value_str row.base == some "any"
        || (splitVariations row.variations).contains "any") = true
    · rw [if_pos hc]
      rw [getRule_setWildcard, h1]
      by_cases hk : (vt == n) = true
      · refine ⟨⟨true, r.allowed⟩, ?_, rfl⟩
        simp only [Option.map_some', if_pos hk]
      · refine ⟨r, ?_, hw⟩
        simp only [Option.map_some', if_neg hk]
    · rw [if_neg hc]
      cases hb : normalize_value_str row.base with
      | none =>
        simp only [hb]
        obtain ⟨r2, h2, hw2⟩ :=
          foldl_addAllowed_wildcard vt n (splitVariations row.variations)
            (ensureRule rs vt) r h1
        exact ⟨r2, h2, by rw [hw2]; exact hw⟩
      | some b =>
        simp only [hb]
        obtain ⟨r1, h1', hw1⟩ := getRule_addAllowed_wildcard (ensureRule rs vt) vt b n r h1
        obtain ⟨r2, h2, hw2⟩ :=
          foldl_addAllowed_wildcard vt n (splitVariations row.variations) _ r1 h1'
        exact ⟨r2, h2, by rw [hw2, hw1]; exact hw⟩

theorem loadValueRow_sets_wildcard (rs : VRules) (row : ValuesRow) (n : String)
    (hn : normalize_header_name row.vtype = some n)
    (hany : (normalize_value_str row.base == some "any"
      || (splitVariations row.variations).contains "any") = true) :
    ∃ r, getRule (loadValueRow rs row) n = some r ∧ r.wildcard = true := by
  simp only [loadValueRow, hn]
  rw [if_pos hany]
  have hs := getRule_ensure_self rs n
  cases hf : getRule (ensureRule rs n) n with
  | none =>
    rw [hf] at hs
    exact Bool.noConfusion hs
  | some r0 =>
    rw [getRule_setWildcard, hf]
    exact ⟨⟨true, r0.allowed⟩, by simp, rfl⟩

theorem load_fold_wildcard_mono :
    ∀ (rows : List ValuesRow) (rs : VRules) (n : String) (r : VRule),
      getRule rs n = some r → r.wildcard = true →
      ∃ r', getRule (rows.foldl loadValueRow rs) n = some r' ∧ r'.wildcard = true
  | [], rs, n, r, h, hw => ⟨r, h, hw⟩
  | row :: rows, rs, n, r, h, hw => by
    simp only [List.foldl_cons]
    obtain ⟨r1, h1, hw1⟩ := loadValueRow_wildcard_mono rs row n r h hw
    exact load_fold_wildcard_mono rows _ n r1 h1 hw1

/-- Wildcard rules with their accepted sets emptied: used to state that
the accepted set of a wildcard field is never consulted. -/
def scrubWildcardAllowed (rs : VRules) : VRules :=
  rs.map (fun p => if p.2.wildcard = true then (p.1, ⟨true, []⟩) else p)

theorem getRule_scrub (rs : VRules) (n : String) :
    getRule (scrubWildcardAllowed rs) n
      = (getRule rs n).map
          (fun r => if r.wildcard = true then ⟨true, []⟩ else r) := by
  unfold getRule scrubWildcardAllowed
  rw [find?_map_keyed _ (fun p => by by_cases h : p.2.wildcard = true <;> simp [h])]
  cases hf : List.find? (fun p => p.1 == n) rs with
  | none => rfl
  | some p =>
    simp only [Option.map_some']
    by_cases hw : p.2.wildcard = true <;> simp [hw]

theorem check_values_scrub (df : Table) (rs : VRules) :
    check_values df (scrubWildcardAllowed rs) = check_values df rs := by
  unfold check_values
  congr 1
  apply List.map_congr_left
  intro c _
  cases hn : normalize_header_name (Value.str c.name) with
  | none => simp only [hn]
  | some vt =>
    simp only [hn, getRule_scrub]
    cases hr : getRule rs vt with
    | none => simp only [hr, Option.map_none']
    | some r =>
      simp only [hr, Option.map_some']
      by_cases hw : r.wildcard = true
      · simp [hw]
      · simp [hw]

/-- C10 (confirmed): a Values-sheet row whose base value or any
variation normalizes to the sentinel "any" makes the field's final
rule a wildcard (later rows never clear it), and for wildcard fields
the accepted set is never consulted: replacing every wildcard rule's
accepted set by the empty set leaves check_values unchanged on every
table. -/
theorem c10_wildcard_invariant :
    (∀ (rows : List ValuesRow) (row : ValuesRow) (n : String),
      row ∈ rows →
      normalize_header_name row.vtype = some n →
      (normalize_value_str row.base == some "any"
        || (splitVariations row.variations).contains "any") = true →
      ∃ r, getRule (load_value_rules rows) n = some r ∧ r.wildcard = true)
    ∧ (∀ (df : Table) (rs : VRules),
        check_values df (scrubWildcardAllowed rs) = check_values df rs) := by
  constructor
  · intro rows row n hmem hn hany
    obtain ⟨s, t, rfl⟩ := List.append_of_mem hmem
    unfold load_value_rules
    rw [List.foldl_append]
    simp only [List.foldl_cons]
    obtain ⟨r0, h0, hw0⟩ :=
      loadValueRow_sets_wildcard (List.foldl loadValueRow [] s) row n hn hany
    exact load_fold_wildcard_mono t _ n r0 h0 hw0
  · exact check_values_scrub

/-- C10 witness: a rule row with base value "ANY" yields a wildcard
rule for the field. -/
theorem c10_wildcard_invariant_witness :
    ∃ r, getRule (load_value_rules
        [⟨Value.str "shape", Value.str "ANY", Value.none⟩]) "shape"
      = some r ∧ r.wildcard = true :=
  c10_wildcard_invariant.1
    [⟨Value.str "shape", Value.str "ANY", Value.none⟩]
    ⟨Value.str "shape", Value.str "ANY", Value.none⟩ "shape"
    (by simp) (by decide) (by decide)

end DV

namespace DV

theorem countP_keyed_by {α : Type} (key : α → String) :
    ∀ (l : List α), (l.map key).Nodup → ∀ (x : α), x ∈ l →
      ∀ (q : α → Bool), (∀ y, q y = true → key y = key x) →
      l.countP q = if q x then 1 else 0
  | [], _, x, hmem, _, _ => absurd hmem (by simp)
  | a :: l, hnd, x, hmem, q, hq => by
    rw [List.countP_cons]
    by_cases hax : key a = key x
    · have hxa : x = a := by
        rcases List.mem_cons.mp hmem with h | h
        · exact h
        · exfalso
          have : key x ∈ l.map key := List.mem_map_of_mem key h
          rw [← hax] at this
          exact (List.nodup_cons.mp (by simpa using hnd)).1 this
      subst hxa
      have hrest : l.countP q = 0 := by
        rw [List.countP_eq_zero]
        intro y hy hqy
        have : key y ∈ l.map key := List.mem_map_of_mem key hy
        rw [hq y hqy] at this
        exact (List.nodup_cons.mp (by simpa using hnd)).1 this
      rw [hrest]
      cases hqx : q x <;> simp [hqx]
    · have hmem' : x ∈ l := by
        rcases List.mem_cons.mp hmem with h | h
        · exact absurd (congrArg key h.symm) hax
        · exact h
      have hqa : ¬ q a = true := fun hc => hax (hq a hc)
      rw [if_neg hqa, Nat.add_zero]
      exact countP_keyed_by key l (by simpa using (List.nodup_cons.mp (by simpa using hnd)).2) x hmem' q hq

theorem urlRowIssues_row (df : Table) (probe : ℕ → String → ProbeOutcome) (j : ℕ) :
    ∀ iss ∈ urlRowIssues df probe j, iss.row = j + 2 := by
  intro iss hin
  simp only [urlRowIssues, List.mem_filterMap] at hin
  obtain ⟨c, -, hc⟩ := hin
  by_cases hw : (fast_check_url (c.cellD j) (probe j c.name) == UrlResult.working) = true
  · rw [if_pos hw] at hc
    exact absurd hc (by simp)
  · rw [if_neg hw] at hc
    cases hc
    rfl

/-- C4 (amended): a cell that is blank in the URL checker's own sense
(None, or whitespace-only text) is classified NOT PROVIDED regardless
of any probe outcome (it is never probed); a non-blank cell is
classified from its probe: statuses 200/301/302 are WORKING, any other
status is NOT WORKING carrying the status code, an exception or
timeout is NOT WORKING with no code; and exactly one issue per (row,
URL-column) pair is reported whenever the classification is not
WORKING.  Note the blank test is not isEmpty: NaN and the literal text
"nan" are probed (see the counterexample). -/
theorem c4_url_classification (df : Table) (probe : ℕ → String → ProbeOutcome) :
    (∀ (v : Value) (o o' : ProbeOutcome), url_blank v = true →
        fast_check_url v o = UrlResult.notProvided ∧
        fast_check_url v o = fast_check_url v o')
    ∧ (∀ (v : Value) (c : ℕ), url_blank v = false →
        fast_check_url v (ProbeOutcome.status c)
          = (if c = 200 ∨ c = 301 ∨ c = 302 then UrlResult.working
             else UrlResult.notWorking (some c))
        ∧ fast_check_url v ProbeOutcome.exn = UrlResult.notWorking Option.none)
    ∧ (∀ (i : ℕ) (n : String) (c : Col),
        (df.cols.map Col.name).Nodup →
        i < df.nRows → df.findCol n = some c → containsUrl n = true →
        (check_all_urls df probe).countP
            (fun iss => iss.row == i + 2 && iss.col == n)
          = (if fast_check_url (c.cellD i) (probe i n) = UrlResult.working
             then 0 else 1)) := by
  refine ⟨?_, ?_, ?_⟩
  · intro v o o' hb
    constructor
    · unfold fast_check_url
      rw [if_pos hb]
    · unfold fast_check_url
      rw [if_pos hb, if_pos hb]
  · intro v c hb
    constructor
    · unfold fast_check_url
      rw [if_neg (by simp [hb])]
      show (if (c == 200 || c == 301 || c == 302) = true then UrlResult.working
            else UrlResult.notWorking (some c)) = _
      by_cases hc : c = 200 ∨ c = 301 ∨ c = 302
      · rw [if_pos (show (c == 200 || c == 301 || c == 302) = true by
            rcases hc with rfl | rfl | rfl <;> rfl), if_pos hc]
      · rw [if_neg (show ¬ (c == 200 || c == 301 || c == 302) = true by
            simp only [Bool.or_eq_true, beq_iff_eq]; tauto), if_neg hc]
    · unfold fast_check_url
      rw [if_neg (by simp [hb])]
  · intro i n c hnd hi hfc hurl
    have hcn : c.name = n := by
      have := @List.find?_some _ (fun c : Col => c.name == n) c df.cols hfc
      simpa using this
    have hcmem : c ∈ df.cols := List.mem_of_find?_eq_some hfc
    unfold check_all_urls
    rw [List.countP_flatten, List.map_map]
    have hzero : ∀ j, j ≠ i →
        ((List.countP (fun iss : UIssue => iss.row == i + 2 && iss.col == n))
          ∘ (urlRowIssues df probe)) j = 0 := by
      intro j hj
      show (urlRowIssues df probe j).countP _ = 0
      rw [List.countP_eq_zero]
      intro iss hiss
      have hrow := urlRowIssues_row df probe j iss hiss
      simp only [Bool.and_eq_true, beq_iff_eq]
      rintro ⟨h1, -⟩
      omega
    rw [sumMapRangeSingle
      ((List.countP (fun iss : UIssue => iss.row == i + 2 && iss.col == n))
        ∘ (urlRowIssues df probe)) i hzero df.nRows, if_pos hi]
    show (urlRowIssues df probe i).countP
      (fun iss => iss.row == i + 2 && iss.col == n) = _
    unfold urlRowIssues
    rw [countP_filterMap_list]
    have hcu : c ∈ urlCols df := by
      unfold urlCols
      rw [List.mem_filter]
      exact ⟨hcmem, by rw [hcn]; exact hurl⟩
    have hndu : ((urlCols df).map Col.name).Nodup := by
      apply List.Nodup.sublist _ hnd
      exact List.Sublist.map Col.name (List.filter_sublist df.cols)
    refine Eq.trans (countP_keyed_by Col.name (urlCols df) hndu c hcu _ ?_) ?_
    · intro y hq
      by_cases hw : (fast_check_url (y.cellD i) (probe i y.name) == UrlResult.working) = true
      · rw [if_pos hw] at hq
        simp at hq
      · rw [if_neg hw] at hq
        simp only [Option.map_some', Option.getD_some, Bool.and_eq_true,
          beq_iff_eq] at hq
        rw [hcn]
        exact hq.2
    · by_cases hw : (fast_check_url (c.cellD i) (probe i c.name) == UrlResult.working) = true
      · rw [if_pos hw]
        simp only [Option.map_none', Option.getD_none]
        rw [if_neg (by simp), if_pos (by rw [← hcn]; exact beq_iff_eq.mp hw)]
      · rw [if_neg hw]
        simp only [Option.map_some', Option.getD_some]
        rw [if_pos (by simp [hcn]), if_neg (by rw [← hcn]; simpa using hw)]

/-- C4 witness: a probed URL cell answered 404 yields exactly one
issue for its (row, column) pair. -/
theorem c4_url_classification_witness :
    (check_all_urls ⟨[⟨"image_url_1", [Value.str "http x"]⟩]⟩
        (fun _ _ => ProbeOutcome.status 404)).countP
      (fun iss => iss.row == 0 + 2 && iss.col == "image_url_1") = 1 := by
  have h := (c4_url_classification ⟨[⟨"image_url_1", [Value.str "http x"]⟩]⟩
    (fun _ _ => ProbeOutcome.status 404)).2.2 0 "image_url_1"
    ⟨"image_url_1", [Value.str "http x"]⟩ (by decide) (by decide) (by decide) (by decide)
  rw [h]
  decide

/-- C4 counterexample: float NaN is empty per is_empty_value, yet the
URL checker probes it — its classification follows the probe outcome
and is never NOT PROVIDED, refuting the claim that cells empty per
isEmpty are classified NOT_PROVIDED and never probed. -/
theorem c4_counterexample :
    is_empty_value Value.nan = true
    ∧ fast_check_url Value.nan (ProbeOutcome.status 404)
        = UrlResult.notWorking (some 404)
    ∧ fast_check_url Value.nan ProbeOutcome.exn = UrlResult.notWorking Option.none
    ∧ fast_check_url Value.nan (ProbeOutcome.status 404) ≠ UrlResult.notProvided := by
  decide

end DV

namespace DV

/-- C6 (amended): a column matching no synonym is recorded in
unknownHeaders and retained unchanged in the reconciled table, but it
does take further part in validation: a retained unknown column still
receives Value-Membership issues whenever its normalized name carries
a non-wildcard value rule and a cell misses the allowed set, and it is
still selected for URL probing whenever its name contains "url". -/
theorem c6_unknown_columns (df : Table) (hm : String → Option String) (c : Col)
    (hc : c ∈ df.cols)
    (hmiss : (normalize_header_name (Value.str c.name)).bind hm = Option.none) :
    (c.name ∈ (normalize_headers df hm).2)
    ∧ (c ∈ (normalize_headers df hm).1.cols)
    ∧ (∀ (rules : VRules) (vt : String) (r : VRule) (i : ℕ) (v : Value) (nv : String),
        normalize_header_name (Value.str c.name) = some vt →
        getRule rules vt = some r → r.wildcard = false →
        c.cells.get? i = some v →
        normalize_value_str v = some nv → r.allowed.contains nv = false →
        ∃ iss ∈ check_values (normalize_headers df hm).1 rules,
          iss.row = i + 2 ∧ iss.col = c.name ∧ iss.value = v)
    ∧ (containsUrl c.name = true → c ∈ urlCols (normalize_headers df hm).1) := by
  have hkeep : c ∈ (normalize_headers df hm).1.cols := by
    simp only [normalize_headers]
    refine List.mem_map.mpr ⟨c, hc, ?_⟩
    simp only [hmiss]
  have hunk : c.name ∈ (normalize_headers df hm).2 := by
    simp only [normalize_headers]
    refine List.mem_map.mpr ⟨c, ?_, rfl⟩
    rw [List.mem_filter]
    refine ⟨hc, ?_⟩
    rw [hmiss]
    rfl
  refine ⟨hunk, hkeep, ?_, ?_⟩
  · intro rules vt r i v nv hn hr hw hv hnv hna
    refine ⟨⟨i + 2, c.name, v⟩, ?_, rfl, rfl, rfl⟩
    apply (mem_check_values _ rules _).mpr
    refine ⟨c, hkeep, vt, r, hn, hr, hw, ?_⟩
    apply (mem_valueCheckCells _ _ _ c.cells 0).mpr
    exact ⟨i, v, hv, by rw [Nat.zero_add], nv, hnv, hna⟩
  · intro hurl
    unfold urlCols
    rw [List.mem_filter]
    exact ⟨hkeep, hurl⟩

/-- C6 witness: an unreconciled column named "milky" with a value rule
still yields a Value-Membership issue on a non-allowed cell. -/
theorem c6_unknown_columns_witness :
    ∃ iss ∈ check_values
        (normalize_headers ⟨[⟨"milky", [Value.str "x"]⟩]⟩ (fun _ => Option.none)).1
        [("milky", ⟨false, ["yes"]⟩)],
      iss.row = 0 + 2 ∧ iss.col = "milky" ∧ iss.value = Value.str "x" :=
  (c6_unknown_columns ⟨[⟨"milky", [Value.str "x"]⟩]⟩ (fun _ => Option.none)
    ⟨"milky", [Value.str "x"]⟩ (by simp) (by decide)).2.2.1
    [("milky", ⟨false, ["yes"]⟩)] "milky" ⟨false, ["yes"]⟩ 0 (Value.str "x") "x"
    (by decide) (by decide) rfl rfl (by decide) (by decide)

/-- C6 counterexample: a column matching no synonym ends up in
unknownHeaders yet still produces issues — a retained unknown column
whose name contains "url" is probed by the URL checker (here answered
404), and a retained unknown column whose normalized name has a value
rule is membership-checked; this refutes the claim that unknown
columns contribute no further issues. -/
theorem c6_counterexample :
    (normalize_headers ⟨[⟨"my_url", [Value.str "x"]⟩]⟩ (fun _ => Option.none)).2
      = ["my_url"]
    ∧ check_all_urls
        (normalize_headers ⟨[⟨"my_url", [Value.str "x"]⟩]⟩ (fun _ => Option.none)).1
        (fun _ _ => ProbeOutcome.status 404)
      = [⟨2, "my_url", Value.str "x", UrlResult.notWorking (some 404)⟩]
    ∧ (normalize_headers ⟨[⟨"milky", [Value.str "x"]⟩]⟩ (fun _ => Option.none)).2
      = ["milky"]
    ∧ check_values
        (normalize_headers ⟨[⟨"milky", [Value.str "x"]⟩]⟩ (fun _ => Option.none)).1
        [("milky", ⟨false, ["yes"]⟩)]
      = [⟨2, "milky", Value.str "x"⟩] := by decide

end DV

namespace DV

theorem countP_range_single (q : ℕ → Bool) (i : ℕ) (h : ∀ j, j ≠ i → q j = false) :
    ∀ n, (List.range n).countP q = if i < n then (if q i then 1 else 0) else 0
  | 0 => by simp
  | n + 1 => by
    rw [List.range_succ, List.countP_append, countP_range_single q i h n]
    have hone : [n].countP q = if q n then 1 else 0 := by
      rw [List.countP_cons, List.countP_nil]
      cases hq : q n <;> simp [hq]
    rw [hone]
    by_cases hc : i < n
    · rw [if_pos hc, if_pos (by omega : i < n + 1), h n (by omega)]
      simp
    · rw [if_neg hc]
      by_cases hc2 : i = n
      · subst hc2
        rw [if_pos (by omega : i < i + 1)]
        omega
      · rw [if_neg (by omega : ¬ i < n + 1), h n (by omega)]
        simp

theorem priceRowIssue_row (wn pn tn : String) (df : Table) (j : ℕ) (iss : PIssue)
    (h : priceRowIssue wn pn tn df j = some iss) : iss.row = j + 2 := by
  unfold priceRowIssue at h
  cases hw : to_float (df.cellD wn j) with
  | none =>
    simp only [hw] at h
    exact Option.noConfusion h
  | some w =>
    cases hp : to_float (df.cellD pn j) with
    | none =>
      simp only [hw, hp] at h
      exact Option.noConfusion h
    | some p =>
      cases ht : to_float (df.cellD tn j) with
      | none =>
        simp only [hw, hp, ht] at h
        exact Option.noConfusion h
      | some t =>
        simp only [hw, hp, ht] at h
        by_cases habs : ((((w.mul p).round2).sub t).absGtHundredth) = true
        · rw [if_pos habs] at h
          cases h
          rfl
        · rw [if_neg habs] at h
          exact Option.noConfusion h

/-- C1 (confirmed): with the three price columns present, a row whose
three operands all parse through to_float is flagged exactly once when
|round(weight * unitPrice, 2) - totalPrice| > 0.01 and not otherwise,
and a row with a missing or unparsable operand is never flagged; every
flagged row's issue sits on the total-price column, carries the raw
total-price cell and the expected value round(weight * unitPrice, 2).
In particular the 1.0 / 100.0 / 100.00 row yields no issue, and with
totalPrice 105.0 exactly one Price-Mismatch issue is produced whose
expected value denotes 100. -/
theorem c1_price_mismatch :
    (∀ (df : Table) (wn pn tn : String),
      find_canonical_col df weightColNames = some wn →
      find_canonical_col df ["price_per_carat"] = some pn →
      find_canonical_col df ["total_sales_price"] = some tn →
      ∀ i, i < df.nRows →
        ((∀ w p t, to_float (df.cellD wn i) = some w →
            to_float (df.cellD pn i) = some p →
            to_float (df.cellD tn i) = some t →
            (build_price_mismatch_issues df).countP (fun iss => iss.row == i + 2)
              = if 1 / 100 < |round2 (w.val * p.val) - t.val| then 1 else 0)
          ∧ ((to_float (df.cellD wn i) = Option.none ∨
              to_float (df.cellD pn i) = Option.none ∨
              to_float (df.cellD tn i) = Option.none) →
            (build_price_mismatch_issues df).countP (fun iss => iss.row == i + 2) = 0))
        ∧ (∀ iss ∈ build_price_mismatch_issues df, iss.row = i + 2 →
            ∃ w p t, to_float (df.cellD wn i) = some w ∧
              to_float (df.cellD pn i) = some p ∧
              to_float (df.cellD tn i) = some t ∧
              iss.col = tn ∧ iss.value = df.cellD tn i ∧
              iss.expected.val = round2 (w.val * p.val) ∧
              1 / 100 < |round2 (w.val * p.val) - t.val|))
    ∧ build_price_mismatch_issues
        ⟨[⟨"carat", [Value.num 1 0]⟩, ⟨"price_per_carat", [Value.num 100 0]⟩,
          ⟨"total_sales_price", [Value.num 10000 2]⟩]⟩ = []
    ∧ build_price_mismatch_issues
        ⟨[⟨"carat", [Value.num 1 0]⟩, ⟨"price_per_carat", [Value.num 100 0]⟩,
          ⟨"total_sales_price", [Value.num 105 0]⟩]⟩
      = [⟨2, "total_sales_price", Value.num 105 0, ⟨10000, 2⟩, ⟨10, 1⟩,
          ⟨1000, 1⟩, ⟨1050, 1⟩⟩]
    ∧ (Dec.val ⟨10000, 2⟩ = 100) := by
  refine ⟨?_, by decide, by decide, by norm_num [Dec.val]⟩
  intro df wn pn tn hfw hfp hft i hi
  have hbuild : build_price_mismatch_issues df
      = (List.range df.nRows).filterMap (priceRowIssue wn pn tn df) := by
    unfold build_price_mismatch_issues
    simp only [hfw, hfp, hft]
  have hcount : ∀ q : PIssue → Bool,
      (build_price_mismatch_issues df).countP
        (fun iss => iss.row == i + 2)
      = (if ((priceRowIssue wn pn tn df i).map
            (fun iss => iss.row == i + 2)).getD false = true then 1 else 0) := by
    intro q
    rw [hbuild, countP_filterMap_list]
    rw [countP_range_single _ i ?hz df.nRows, if_pos hi]
    case hz =>
      intro j hj
      cases hrow : priceRowIssue wn pn tn df j with
      | none => simp [hrow]
      | some iss =>
        have hr2 := priceRowIssue_row wn pn tn df j iss hrow
        simp only [hrow, Option.map_some', Option.getD_some]
        rw [beq_eq_false_iff_ne, hr2]
        omega
  constructor
  · constructor
    · intro w p t hw hp ht
      rw [hcount (fun iss => iss.row == i + 2)]
      have heval : priceRowIssue wn pn tn df i
          = (if (((w.mul p).round2).sub t).absGtHundredth then
              some ⟨i + 2, tn, df.cellD tn i, (w.mul p).round2, w, p, t⟩
            else Option.none) := by
        simp only [priceRowIssue, hw, hp, ht]
      rw [heval]
      have hbr : ((((w.mul p).round2).sub t).absGtHundredth = true)
          ↔ 1 / 100 < |round2 (w.val * p.val) - t.val| := by
        rw [Dec.absGtHundredth_iff, Dec.val_sub, Dec.val_round2, Dec.val_mul]
      by_cases habs : ((((w.mul p).round2).sub t).absGtHundredth) = true
      · rw [if_pos (hbr.mp habs)]
        simp [habs]
      · rw [if_neg (fun hc => habs (hbr.mpr hc))]
        simp [habs]
    · intro hnone
      rw [hcount (fun iss => iss.row == i + 2)]
      have heval : priceRowIssue wn pn tn df i = Option.none := by
        unfold priceRowIssue
        cases hW : to_float (df.cellD wn i) with
        | none => rfl
        | some w =>
          cases hP : to_float (df.cellD pn i) with
          | none => rfl
          | some p =>
            cases hT : to_float (df.cellD tn i) with
            | none => rfl
            | some t =>
              rcases hnone with h | h | h
              · rw [hW] at h
                exact Option.noConfusion h
              · rw [hP] at h
                exact Option.noConfusion h
              · rw [hT] at h
                exact Option.noConfusion h
      rw [heval]
      simp
  · intro iss hin hrow
    rw [hbuild] at hin
    rw [List.mem_filterMap] at hin
    obtain ⟨j, -, hj⟩ := hin
    have hjrow := priceRowIssue_row wn pn tn df j iss hj
    have hji : j = i := by omega
    subst hji
    unfold priceRowIssue at hj
    cases hw : to_float (df.cellD wn j) with
    | none =>
      simp only [hw] at hj
      exact Option.noConfusion hj
    | some w =>
      cases hp : to_float (df.cellD pn j) with
      | none =>
        simp only [hw, hp] at hj
        exact Option.noConfusion hj
      | some p =>
        cases ht : to_float (df.cellD tn j) with
        | none =>
          simp only [hw, hp, ht] at hj
          exact Option.noConfusion hj
        | some t =>
          simp only [hw, hp, ht] at hj
          by_cases habs : ((((w.mul p).round2).sub t).absGtHundredth) = true
          · rw [if_pos habs] at hj
            cases hj
            refine ⟨w, p, t, rfl, rfl, rfl, rfl, rfl, ?_, ?_⟩
            · rw [Dec.val_round2, Dec.val_mul]
            · have hbr := (Dec.absGtHundredth_iff (((w.mul p).round2).sub t)).mp habs
              rw [Dec.val_sub, Dec.val_round2, Dec.val_mul] at hbr
              exact hbr
          · rw [if_neg habs] at hj
            exact Option.noConfusion hj

/-- C1 witness: the general description applied at the mismatching
concrete row, giving exactly one issue for that row. -/
theorem c1_price_mismatch_witness :
    (build_price_mismatch_issues
        ⟨[⟨"carat", [Value.num 1 0]⟩, ⟨"price_per_carat", [Value.num 100 0]⟩,
          ⟨"total_sales_price", [Value.num 105 0]⟩]⟩).countP
      (fun iss => iss.row == 0 + 2) = 1 := by
  have h := ((c1_price_mismatch.1
    ⟨[⟨"carat", [Value.num 1 0]⟩, ⟨"price_per_carat", [Value.num 100 0]⟩,
      ⟨"total_sales_price", [Value.num 105 0]⟩]⟩
    "carat" "price_per_carat" "total_sales_price"
    (by decide) (by decide) (by decide) 0 (by decide))).1.1
    ⟨10, 1⟩ ⟨1000, 1⟩ ⟨1050, 1⟩ (by decide) (by decide) (by decide)
  rw [h]
  have hv : (Dec.val ⟨10, 1⟩ * Dec.val ⟨1000, 1⟩ : ℚ) = 100 := by
    norm_num [Dec.val]
  rw [hv]
  have hr : round2 (100 : ℚ) = 100 := by
    unfold round2 roundHalfEven
    rw [show ((100 : ℚ) * 100) = ((10000 : ℤ) : ℚ) by norm_num]
    rw [Int.floor_intCast]
    norm_num
  rw [hr]
  have ht : (Dec.val ⟨1050, 1⟩ : ℚ) = 105 := by norm_num [Dec.val]
  rw [ht]
  rw [if_pos (by norm_num)]

end DV
